import Mathlib

/-!
Shallow embedding of the Toggle-Untoggle curation core:
the property aggregator and unit converter (`image_analysis_pipeline.py`),
the export reconciler (`main.py`), and the region registry / grouping
state machine (`toggle.py`).  Numeric code is modelled over `ℚ`.
-/

namespace ToggleUntoggle

/-- Per-region measurements as returned by `skimage.measure.regionprops`
(the external collaborator).  `compute_region_properties` consumes a list
of these; fields are rationals standing for the Python floats. -/
structure RegionProps where
  area : ℚ
  bbox0 : ℚ
  bbox1 : ℚ
  bbox2 : ℚ
  bbox3 : ℚ
  convex_area : ℚ
  perimeter : ℚ
  eccentricity : ℚ
  extent : ℚ
  major_axis_length : ℚ
  minor_axis_length : ℚ
  equivalent_diameter : ℚ
  feret_diameter_max : ℚ
  orientation : ℚ
  perimeter_crofton : ℚ
  solidity : ℚ
  centroid_y : ℚ
  centroid_x : ℚ
  mean_intensity : ℚ
  max_intensity : ℚ
  min_intensity : ℚ


/-- The single aggregate row built by `compute_region_properties`
(`image_analysis_pipeline.py`, lines 306-331). -/
structure AggRecord where
  label : ℚ
  area : ℚ
  bbox_area : ℚ
  area_convex : ℚ
  perimeter : ℚ
  eccentricity : ℚ
  extent : ℚ
  major_axis_length : ℚ
  minor_axis_length : ℚ
  equivalent_diameter_area : ℚ
  feret_diameter_max : ℚ
  orientation : ℚ
  perimeter_crofton : ℚ
  solidity : ℚ
  centroid_y : ℚ
  centroid_x : ℚ
  mean_intensity : Option ℚ
  max_intensity : Option ℚ
  min_intensity : Option ℚ


/-- `total_area = sum(p.area for p in props)`. -/
def totalArea (props : List RegionProps) : ℚ :=
  (props.map RegionProps.area).sum

/-- `weighted_scalar = lambda attr: sum(p.area * getattr(p, attr) for p in props) / total_area`. -/
def weightedScalar (props : List RegionProps) (attr : RegionProps → ℚ) : ℚ :=
  (props.map (fun p => p.area * attr p)).sum / totalArea props

/-- `sum(getattr(p, attr) for p in props)` for the additive quantities. -/
def sumAttr (props : List RegionProps) (attr : RegionProps → ℚ) : ℚ :=
  (props.map attr).sum

/-- Python `max` over a nonempty list of rationals. -/
def listMax (x : ℚ) (xs : List ℚ) : ℚ :=
  xs.foldl max x

/-- Python `min` over a nonempty list of rationals. -/
def listMin (x : ℚ) (xs : List ℚ) : ℚ :=
  xs.foldl min x

/-- `compute_region_properties` (`image_analysis_pipeline.py`, lines 276-331),
starting from the per-region props that `measure.regionprops` yields for the
labeled mask.  Returns `none` where Python returns an empty DataFrame
(no props at all, or zero total area); otherwise the single aggregate row.
`hasIntensity` mirrors `intensity_image is not None`. -/
def compute_region_properties (props : List RegionProps) (hasIntensity : Bool) :
    Option AggRecord :=
  match props with
  | [] => none
  | p :: ps =>
    if totalArea (p :: ps) = 0 then none
    else
      some
        { label := 1
          area := totalArea (p :: ps)
          bbox_area := sumAttr (p :: ps) (fun q => (q.bbox2 - q.bbox0) * (q.bbox3 - q.bbox1))
          area_convex := sumAttr (p :: ps) RegionProps.convex_area
          perimeter := sumAttr (p :: ps) RegionProps.perimeter
          eccentricity := weightedScalar (p :: ps) RegionProps.eccentricity
          extent := weightedScalar (p :: ps) RegionProps.extent
          major_axis_length := weightedScalar (p :: ps) RegionProps.major_axis_length
          minor_axis_length := weightedScalar (p :: ps) RegionProps.minor_axis_length
          equivalent_diameter_area := weightedScalar (p :: ps) RegionProps.equivalent_diameter
          feret_diameter_max := listMax p.feret_diameter_max (ps.map RegionProps.feret_diameter_max)
          orientation := weightedScalar (p :: ps) RegionProps.orientation
          perimeter_crofton := sumAttr (p :: ps) RegionProps.perimeter_crofton
          solidity := weightedScalar (p :: ps) RegionProps.solidity
          centroid_y := weightedScalar (p :: ps) RegionProps.centroid_y
          centroid_x := weightedScalar (p :: ps) RegionProps.centroid_x
          mean_intensity :=
            if hasIntensity then
              some (sumAttr (p :: ps) RegionProps.mean_intensity / (p :: ps).length)
            else none
          max_intensity :=
            if hasIntensity then
              some (listMax p.max_intensity (ps.map RegionProps.max_intensity))
            else none
          min_intensity :=
            if hasIntensity then
              some (listMin p.min_intensity (ps.map RegionProps.min_intensity))
            else none }

/-- One row of the measurement DataFrame as seen by `pixel_conversion`.
`none` models an absent column (`if col in big_df`); the fields the
converter never touches are kept to witness that they stay untouched. -/
structure MeasurementRow where
  area : Option ℚ
  bbox_area : Option ℚ
  area_convex : Option ℚ
  perimeter : Option ℚ
  major_axis_length : Option ℚ
  minor_axis_length : Option ℚ
  equivalent_diameter_area : Option ℚ
  feret_diameter_max : Option ℚ
  perimeter_crofton : Option ℚ
  eccentricity : Option ℚ
  extent : Option ℚ
  orientation : Option ℚ
  solidity : Option ℚ
  centroid_y : Option ℚ
  centroid_x : Option ℚ
  mean_intensity : Option ℚ
  max_intensity : Option ℚ
  min_intensity : Option ℚ

/-- `pixel_conversion` (`image_analysis_pipeline.py`, lines 53-65), applied
to one row: `area`, `bbox_area`, `area_convex` are multiplied by
`pixel_rate ** 2`; `perimeter`, `major_axis_length`, `minor_axis_length`,
`equivalent_diameter_area`, `feret_diameter_max`, `perimeter_crofton` by
`pixel_rate`; every other column is left as is. -/
def pixel_conversion (row : MeasurementRow) (pixelRate : ℚ) : MeasurementRow :=
  { row with
    area := row.area.map (· * pixelRate ^ 2)
    bbox_area := row.bbox_area.map (· * pixelRate ^ 2)
    area_convex := row.area_convex.map (· * pixelRate ^ 2)
    perimeter := row.perimeter.map (· * pixelRate)
    major_axis_length := row.major_axis_length.map (· * pixelRate)
    minor_axis_length := row.minor_axis_length.map (· * pixelRate)
    equivalent_diameter_area := row.equivalent_diameter_area.map (· * pixelRate)
    feret_diameter_max := row.feret_diameter_max.map (· * pixelRate)
    perimeter_crofton := row.perimeter_crofton.map (· * pixelRate) }

/-- The pixel-rate gate at the head of `ImageProcessingWorker.run`
(`main.py`, lines 1368-1376): `if not self.pixel_conv_rate` rejects a
missing rate and the float `0.0` (both falsy); `if self.pixel_conv_rate > 2`
rejects rates above the ceiling `2`.  Returns `true` when processing
continues past the gate, `false` when the run stops with an error status. -/
def rate_gate_passes (rate : Option ℚ) : Bool :=
  match rate with
  | none => false
  | some q => if q = 0 then false else if 2 < q then false else true

/-- One tabular record as handled by the export reconciler.  `image` and
`label` are the dedup key columns (labels already rendered to strings as
`str(r['label'])` does); `value` stands for the remaining payload columns,
so that two records with the same key can still be told apart. -/
structure ExportRow where
  image : String
  label : String
  value : ℚ
  deriving DecidableEq, Repr

/-- The `(image_name, label)` key of a record. -/
def rowKey (r : ExportRow) : String × String :=
  (r.image, r.label)

/-- The row filter of `integrate_new_objects` (`main.py`, lines 995-1001):
a row is kept unless its `(image_name, str(label))` pair is a key of the
group-membership map — rows whose label starts with `"drawn_"` are exempt. -/
def headSegment : List Char → List Char → Bool
  | [], _ => true
  | _ :: _, [] => false
  | a :: as, b :: bs => if a = b then headSegment as bs else false

/-- Python `str.startswith(pre)`. -/
def pyStartsWith (s pre : String) : Bool :=
  headSegment pre.data s.data

def keepRow (memberKeys : List (String × String)) (r : ExportRow) : Bool :=
  if pyStartsWith r.label "drawn_" then true
  else if (r.image, r.label) ∈ memberKeys then false else true

/-- `DataFrame.drop_duplicates(subset=['image_name', 'label'])`
(`main.py`, line 1011): pandas' default `keep='first'` retains, for each
key, the earliest row, preserving order. -/
def dropDuplicates : List ExportRow → List (String × String) → List ExportRow
  | [], _ => []
  | r :: rs, seen =>
    if rowKey r ∈ seen then dropDuplicates rs seen
    else r :: dropDuplicates rs (rowKey r :: seen)

/-- The reconciliation tail of `integrate_new_objects` (`main.py`,
lines 987-1011): concatenate the surviving original batch rows
(`correct_df`) with the newly produced merged/disconnected/drawn rows
(in that order, as `build_combined_and_excluded_df` line 929 does),
drop rows superseded by group membership, then deduplicate by
`(image_name, label)`. -/
def integrate_new_objects (correctRows newRows : List ExportRow)
    (memberKeys : List (String × String)) : List ExportRow :=
  dropDuplicates ((correctRows ++ newRows).filter (keepRow memberKeys)) []

/-! ## The region registry (`toggle.py`, class `ImageViewer`)

Masks are 2D boolean grids; the numpy `int32` merged arrays only ever hold
0/1, so `Bool` cells are faithful.  Python `dict`s are insertion-ordered
association lists; a Python `set` of mask-id strings is a duplicate-free
list (membership is all the code observes, except `next(iter(...))`,
modelled as the list head).  A group dict's Python object identity
(`id(group)`) is modelled by a `gid` drawn from a fresh counter. -/

/-- A 2D boolean grid (one binary mask). -/
abbrev Mask := List (List Bool)

/-- One `ClickableMask` item: the state the registry logic reads
(display-only fields — pixmap, colors, opacity value — are not modelled;
`is_inactive` is the activity bookkeeping the logic uses). -/
structure MaskItem where
  name : String
  label : Nat
  binaryMask : Mask
  isInactive : Bool
  deriving DecidableEq, Repr

/-- One entry of `ImageViewer.callback_dict`.  `merged` is an `Option`
because some writers (`mask_click_callback`) omit the `"merged"` key. -/
structure CallbackEntry where
  cbName : String
  cbLabel : String
  isActive : Bool
  merged : Option Bool
  deriving DecidableEq, Repr

/-- One entry of `ImageViewer.new_mask_dict`.  For `"individual"` entries
Python stores the bare label where the others store a list; both are kept
as a list of label strings. -/
structure NewMaskEntry where
  mask : Mask
  source : String
  imageName : String
  labelGroup : List String
  deriving DecidableEq, Repr

/-- One group dict from `ImageViewer.connected_groups`:
`{"mask_ids": set, "color": ..., "mask": merged_mask}`.  `gid` stands for
the dict's Python object identity; the display-only `color` is dropped. -/
structure MaskGroup where
  gid : Nat
  maskIds : List String
  mask : Mask
  deriving DecidableEq, Repr

/-- The mutable registry state of one `ImageViewer`. -/
structure ViewerState where
  maskItems : List MaskItem
  connectedGroups : List MaskGroup
  maskIdToGroup : List (String × Nat)
  callbackDict : List (String × CallbackEntry)
  newMaskDict : List (String × NewMaskEntry)
  preMergeCallbackState : List (String × Option CallbackEntry)
  nextGid : Nat

/-- Python `d.get(k)` on an insertion-ordered dict. -/
def dictLookup {κ α : Type} [DecidableEq κ] (d : List (κ × α)) (k : κ) : Option α :=
  (d.find? (fun kv => decide (kv.1 = k))).map Prod.snd

/-- Python `d[k] = v`: update in place if the key is present, else append. -/
def dictInsert {κ α : Type} [DecidableEq κ] : List (κ × α) → κ → α → List (κ × α)
  | [], k, v => [(k, v)]
  | kv :: rest, k, v =>
    if kv.1 = k then (k, v) :: rest else kv :: dictInsert rest k v

/-- Python `d.pop(k, None)`. -/
def dictErase {κ α : Type} [DecidableEq κ] (d : List (κ × α)) (k : κ) : List (κ × α) :=
  d.filter (fun kv => decide (kv.1 ≠ k))

/-- `ImageViewer.get_mask_id`: `f"{name}_{label}"`. -/
def get_mask_id (name : String) (label : Nat) : String :=
  name ++ "_" ++ toString label

/-- The mask id of an item. -/
def itemId (it : MaskItem) : String :=
  get_mask_id it.name it.label

/-- `ImageViewer.get_item_by_id`: first item whose id matches. -/
def getItemById (s : ViewerState) (mid : String) : Option MaskItem :=
  s.maskItems.find? (fun it => decide (itemId it = mid))

/-- Lexicographic (code-point) comparison of character lists, as Python
compares strings. -/
def charListLt : List Char → List Char → Bool
  | [], [] => false
  | [], _ :: _ => true
  | _ :: _, [] => false
  | a :: as, b :: bs => if a < b then true else if b < a then false else charListLt as bs

/-- Python `a < b` on strings. -/
def strLtB (a b : String) : Bool :=
  charListLt a.data b.data

/-- Insert a string into an ascending (lexicographic) list. -/
def insertSorted (a : String) : List String → List String
  | [] => [a]
  | b :: bs => if strLtB a b || (a = b : Bool) then a :: b :: bs else b :: insertSorted a bs

/-- Python `sorted` on strings (ascending lexicographic). -/
def sortStrings (l : List String) : List String :=
  l.foldr insertSorted []

/-- Insert a natural into an ascending list. -/
def insertSortedNat (a : Nat) : List Nat → List Nat
  | [] => [a]
  | b :: bs => if a ≤ b then a :: b :: bs else b :: insertSortedNat a bs

/-- Python `sorted(labels, key=int)` on decimal label strings, acting on the
underlying integers. -/
def sortNats (l : List Nat) : List Nat :=
  l.foldr insertSortedNat []

/-- `np.zeros_like`: a same-shaped all-false grid. -/
def zerosLike (m : Mask) : Mask :=
  m.map (fun row => row.map (fun _ => false))

/-- `merged_mask[item.binary_mask > 0] = 1`: pointwise OR of two
same-shaped grids. -/
def maskOr (a b : Mask) : Mask :=
  List.zipWith (List.zipWith (fun x y => x || y)) a b

/-- OR of a list of items' masks onto a base grid. -/
def mergeMasks (items : List MaskItem) (base : Mask) : Mask :=
  items.foldl (fun acc it => maskOr acc it.binaryMask) base

/-- `ImageViewer.create_merged_mask` (`toggle.py`, lines 514-545): OR the
active items' masks together, then register the composite under
`f"{name}_({'_'.join(sorted(labels))})"` in `new_mask_dict` (source
`"connect"`) and `callback_dict` (active, merged).  Returns the merged
mask together with the updated state.  (Callers guarantee at least two
items; on `[]` Python would raise on `active_items[0]`.) -/
def create_merged_mask (s : ViewerState) (activeItems : List MaskItem) :
    Mask × ViewerState :=
  match activeItems with
  | [] => ([], s)
  | a :: _ =>
    let mergedMask := mergeMasks activeItems (zerosLike a.binaryMask)
    let labelNames := sortStrings (activeItems.map (fun it => toString it.label))
    let combinedLabel := String.intercalate "_" labelNames
    let maskKey := a.name ++ "_(" ++ combinedLabel ++ ")"
    let nmEntry : NewMaskEntry :=
      { mask := mergedMask, source := "connect", imageName := a.name, labelGroup := labelNames }
    let cbEntry : CallbackEntry :=
      { cbName := a.name, cbLabel := maskKey, isActive := true, merged := some true }
    (mergedMask,
      { s with
        newMaskDict := dictInsert s.newMaskDict maskKey nmEntry
        callbackDict := dictInsert s.callbackDict maskKey cbEntry })

/-- `ImageViewer.get_merged_key_from_group` (`toggle.py`, lines 669-677):
sorted labels of the members that still resolve to items, joined with
commas; the name is recovered from an arbitrary member id by
`split("_")[0]`. -/
def get_merged_key_from_group (s : ViewerState) (g : MaskGroup) : String :=
  let labelNames := sortStrings
    ((g.maskIds.filterMap (getItemById s)).map (fun it => toString it.label))
  let name := String.mk ((g.maskIds.headD "").data.takeWhile (fun ch => decide (ch ≠ '_')))
  name ++ "_(" ++ String.intercalate "," labelNames ++ ")"

/-- `ImageViewer.remove_merged_mask_entries` (`toggle.py`, lines 679-682). -/
def remove_merged_mask_entries (s : ViewerState) (mergedKey : String) : ViewerState :=
  { s with
    callbackDict := dictErase s.callbackDict mergedKey
    newMaskDict := dictErase s.newMaskDict mergedKey }

/-- Set `is_inactive = False` on the first item with the given id
(`item.setOpacity(...)`; `item.is_inactive = False`). -/
def setItemActiveFirst : List MaskItem → String → List MaskItem
  | [], _ => []
  | it :: its, mid =>
    if itemId it = mid then { it with isInactive := false } :: its
    else it :: setItemActiveFirst its mid

/-- `ImageViewer.restore_individual_mask` (`toggle.py`, lines 684-710):
rebuild the member's `callback_dict` entry from the pre-merge snapshot
(`True` when the snapshot is missing or empty), record its original
binary mask in `new_mask_dict` under source `"disconnect"`, reactivate
the item, and drop it from `mask_id_to_group`.  No-op when no item
resolves for the id. -/
def restore_individual_mask (s : ViewerState) (mid : String) : ViewerState :=
  match getItemById s mid with
  | none => s
  | some item =>
    let key := item.name ++ "_" ++ toString item.label
    let isActive :=
      match dictLookup s.preMergeCallbackState key with
      | some (some cached) => cached.isActive
      | _ => true
    let cbEntry : CallbackEntry :=
      { cbName := item.name, cbLabel := toString item.label, isActive := isActive,
        merged := some false }
    let nmEntry : NewMaskEntry :=
      { mask := item.binaryMask, source := "disconnect", imageName := item.name,
        labelGroup := [toString item.label] }
    { s with
      callbackDict := dictInsert s.callbackDict key cbEntry
      newMaskDict := dictInsert s.newMaskDict key nmEntry
      maskItems := setItemActiveFirst s.maskItems mid
      maskIdToGroup := dictErase s.maskIdToGroup mid }

/-- Remove the first group with the given identity from a list
(`connected_groups.remove(group)`). -/
def removeFirstGid : List MaskGroup → Nat → List MaskGroup
  | [], _ => []
  | g :: gs, gid => if g.gid = gid then gs else g :: removeFirstGid gs gid

/-- `ImageViewer.remove_group` (`toggle.py`, lines 712-715). -/
def remove_group (s : ViewerState) (g : MaskGroup) : ViewerState :=
  { s with connectedGroups := removeFirstGid s.connectedGroups g.gid }

/-- `ImageViewer.disconnect_group` (`toggle.py`, lines 658-667): pop the
comma-joined merged key from both dicts, restore every member, remove
the group. -/
def disconnect_group (s : ViewerState) (g : MaskGroup) : ViewerState :=
  let s1 := remove_merged_mask_entries s (get_merged_key_from_group s g)
  remove_group (g.maskIds.foldl restore_individual_mask s1) g

/-- The duplicate-free id set of a list of hit items
(`{self.get_mask_id(m.name, m.label) for m in ...}`). -/
def hitIdSet (hits : List MaskItem) : List String :=
  (hits.map itemId).dedup

/-- The decision part of `ImageViewer.check_and_disconnect` (`toggle.py`,
lines 547-562): the group to disconnect, if every hit mask's id is in
`mask_id_to_group` and all of them map to the same group.  (The group is
looked up in `connected_groups` by identity; under the registry invariant
the indexed group is always present there.) -/
def strokeConnectedIds (s : ViewerState) (hits : List MaskItem) : List String :=
  (hitIdSet hits).filter (fun mid => (dictLookup s.maskIdToGroup mid).isSome)

def findStrokeGroup (s : ViewerState) (hits : List MaskItem) : Option MaskGroup :=
  if (strokeConnectedIds s hits).length = hits.length then
    if (((strokeConnectedIds s hits).filterMap
        (dictLookup s.maskIdToGroup)).dedup).length = 1 then
      match dictLookup s.maskIdToGroup ((strokeConnectedIds s hits).headD "") with
      | some gid => s.connectedGroups.find? (fun g => decide (g.gid = gid))
      | none => none
    else none
  else none

/-- `ImageViewer.check_and_disconnect` (`toggle.py`, lines 547-562). -/
def check_and_disconnect (s : ViewerState) (hits : List MaskItem) :
    Bool × ViewerState :=
  match findStrokeGroup s hits with
  | some g => (true, disconnect_group s g)
  | none => (false, s)

/-- Python `set.update`: append the members not already present. -/
def setUnion (acc ids : List String) : List String :=
  ids.foldl (fun a x => if x ∈ a then a else a ++ [x]) acc

/-- The per-item callback bookkeeping at the end of
`merge_and_connect_masks` (`toggle.py`, lines 597-613): snapshot the
pre-merge callback entry once, then mark the entry merged (creating a
fresh one when absent). -/
def mergeCallbackUpdate (s : ViewerState) (item : MaskItem) : ViewerState :=
  let key := item.name ++ "_" ++ toString item.label
  let s1 :=
    if (dictLookup s.preMergeCallbackState key).isSome then s
    else
      { s with preMergeCallbackState :=
          dictInsert s.preMergeCallbackState key (dictLookup s.callbackDict key) }
  match dictLookup s1.callbackDict key with
  | some e =>
    { s1 with callbackDict := dictInsert s1.callbackDict key { e with merged := some true } }
  | none =>
    let cbEntry : CallbackEntry :=
      { cbName := item.name, cbLabel := toString item.label, isActive := true,
        merged := some false }
    { s1 with callbackDict := dictInsert s1.callbackDict key cbEntry }

/-- `ImageViewer.merge_and_connect_masks` (`toggle.py`, lines 564-613):
collect the distinct groups any touched id belongs to, union the touched
ids with all their members, remove those groups, register one new group
(whose representative mask is the `merged_mask` computed from the touched
items alone) and repoint `mask_id_to_group`, then update the per-item
callback state. -/
def merge_and_connect_masks (s : ViewerState) (activeItems : List MaskItem)
    (maskIds : List String) (mergedMask : Mask) : ViewerState :=
  let uniqueGids := (maskIds.filterMap (dictLookup s.maskIdToGroup)).dedup
  let uniqueGroups := uniqueGids.filterMap
    (fun gid => s.connectedGroups.find? (fun g => decide (g.gid = gid)))
  let mergedMaskIds := uniqueGroups.foldl (fun acc g => setUnion acc g.maskIds) maskIds
  let newGroup : MaskGroup :=
    { gid := s.nextGid, maskIds := mergedMaskIds, mask := mergedMask }
  let s1 :=
    { s with
      connectedGroups := (uniqueGids.foldl removeFirstGid s.connectedGroups) ++ [newGroup]
      maskIdToGroup :=
        mergedMaskIds.foldl (fun d mid => dictInsert d mid s.nextGid) s.maskIdToGroup
      nextGid := s.nextGid + 1 }
  activeItems.foldl mergeCallbackUpdate s1

/-- `ImageViewer.handle_mouse_path` (`toggle.py`, lines 472-492), given the
set of hit masks produced by `get_hit_masks_from_path`: fewer than two
active hits is a no-op; otherwise the merged preview is created (with its
dict entries) first, then the stroke either disconnects the single group
covering every hit or merges the hits into one group. -/
def handle_mouse_path (s : ViewerState) (hits : List MaskItem) : ViewerState :=
  let activeItems := hits.filter (fun m => !m.isInactive)
  if activeItems.length ≤ 1 then s
  else
    let r := create_merged_mask s activeItems
    match check_and_disconnect r.2 hits with
    | (true, s2) => s2
    | (false, s2) => merge_and_connect_masks s2 activeItems (hitIdSet activeItems) r.1

/-- `ImageViewer.get_hit_masks_from_path` abstracted over geometry: the
stroke is identified with the ids it lands on; an item is hit only if it
resolves and is not inactive (`if item.is_inactive: continue`). -/
def strokeHits (s : ViewerState) (ids : List String) : List MaskItem :=
  (ids.dedup.filterMap (getItemById s)).filter (fun it => !it.isInactive)

/-- One completed stroke in connect mode. -/
def applyStroke (s : ViewerState) (ids : List String) : ViewerState :=
  handle_mouse_path s (strokeHits s ids)

/-- A sequence of strokes. -/
def applyStrokes (s : ViewerState) (ops : List (List String)) : ViewerState :=
  ops.foldl applyStroke s

/-- One initial mask fed to `set_togglable_masks`. -/
structure MaskInput where
  imageName : String
  label : Nat
  mask : Mask
  deriving DecidableEq, Repr

/-- The per-mask body of `ImageViewer.set_togglable_masks` (`toggle.py`,
lines 750-793): register the callback entry and `new_mask_dict` entry if
absent and append the clickable item. -/
def addMaskInput (s : ViewerState) (m : MaskInput) : ViewerState :=
  let key := m.imageName ++ "_" ++ toString m.label
  let cbEntry : CallbackEntry :=
    { cbName := m.imageName, cbLabel := toString m.label, isActive := true,
      merged := some false }
  let newItem : MaskItem :=
    { name := m.imageName, label := m.label, binaryMask := m.mask, isInactive := false }
  let nmEntry : NewMaskEntry :=
    { mask := m.mask, source := "individual", imageName := m.imageName,
      labelGroup := [toString m.label] }
  let s1 :=
    if (dictLookup s.callbackDict key).isSome then s
    else { s with callbackDict := dictInsert s.callbackDict key cbEntry }
  let s2 := { s1 with maskItems := s1.maskItems ++ [newItem] }
  if (dictLookup s2.newMaskDict key).isSome then s2
  else { s2 with newMaskDict := dictInsert s2.newMaskDict key nmEntry }

/-- A fresh `ImageViewer` for a list of initial masks: empty dicts, no
groups, then `set_togglable_masks`. -/
def initViewer (masks : List MaskInput) : ViewerState :=
  masks.foldl addMaskInput
    { maskItems := [], connectedGroups := [], maskIdToGroup := [],
      callbackDict := [], newMaskDict := [], preMergeCallbackState := [],
      nextGid := 0 }

/-- `ImageProcessingApp.build_group_label_map` (`main.py`, lines 943-962):
for every group, collect the member labels that still resolve to items
(remembering the last seen image name), sort them numerically, and map
each member `(image_name, label)` pair to the composite label string. -/
def build_group_label_map (s : ViewerState) : List ((String × String) × String) :=
  s.connectedGroups.foldl
    (fun acc g =>
      let found := g.maskIds.filterMap (getItemById s)
      match found.getLast? with
      | none => acc
      | some lastIt =>
        if lastIt.name = "" then acc
        else
          let sortedLabels := sortNats (found.map MaskItem.label)
          let groupLabel :=
            "(" ++ String.intercalate "," (sortedLabels.map toString) ++ ")"
          sortedLabels.foldl
            (fun a lbl => dictInsert a (lastIt.name, toString lbl) groupLabel) acc)
    []

/-! ## Concrete instances used by witnesses and counterexamples -/

/-- The shape-ratio descriptors the spec lists as area-weighted averages,
paired with the aggregate field each one lands in. -/
def shapeRatioFields : List ((RegionProps → ℚ) × (AggRecord → ℚ)) :=
  [(RegionProps.eccentricity, AggRecord.eccentricity),
   (RegionProps.extent, AggRecord.extent),
   (RegionProps.major_axis_length, AggRecord.major_axis_length),
   (RegionProps.minor_axis_length, AggRecord.minor_axis_length),
   (RegionProps.equivalent_diameter, AggRecord.equivalent_diameter_area),
   (RegionProps.orientation, AggRecord.orientation),
   (RegionProps.solidity, AggRecord.solidity)]

/-- A region whose area is `a` and whose every descriptor is `v`. -/
def constProps (a v : ℚ) : RegionProps :=
  { area := a, bbox0 := v, bbox1 := v, bbox2 := v, bbox3 := v,
    convex_area := v, perimeter := v, eccentricity := v, extent := v,
    major_axis_length := v, minor_axis_length := v, equivalent_diameter := v,
    feret_diameter_max := v, orientation := v, perimeter_crofton := v,
    solidity := v, centroid_y := v, centroid_x := v, mean_intensity := v,
    max_intensity := v, min_intensity := v }

/-- A fully populated measurement row: pixel-space area 100, perimeter 40. -/
def c9row : MeasurementRow :=
  { area := some 100, bbox_area := some 1, area_convex := some 2,
    perimeter := some 40, major_axis_length := some 3,
    minor_axis_length := some 4, equivalent_diameter_area := some 5,
    feret_diameter_max := some 6, perimeter_crofton := some 7,
    eccentricity := some (1/2), extent := some (2/3),
    orientation := some (3/5), solidity := some (4/5),
    centroid_y := some 8, centroid_x := some 9, mean_intensity := some 10,
    max_intensity := some 11, min_intensity := some 12 }

/-- Three one-row masks on a 1×3 grid, one pixel each. -/
def exMask1 : Mask := [[true, false, false]]

def exMask2 : Mask := [[false, true, false]]

def exMask3 : Mask := [[false, false, true]]

/-- A registry holding regions 1, 2, 3 of image `img`. -/
def exInit3 : ViewerState :=
  initViewer [⟨"img", 1, exMask1⟩, ⟨"img", 2, exMask2⟩, ⟨"img", 3, exMask3⟩]

/-- After a connect stroke over regions 1 and 2. -/
def exMerged12 : ViewerState := applyStroke exInit3 ["img_1", "img_2"]

/-- Connect {1,2}, then a second stroke over the same two regions, which
disconnects the group: the merge/disconnect round trip. -/
def exRoundTrip : ViewerState := applyStroke exMerged12 ["img_1", "img_2"]

/-- After one connect stroke over all three regions: one group {1,2,3}. -/
def exGroup123 : ViewerState := applyStroke exInit3 ["img_1", "img_2", "img_3"]

/-- A stroke over regions 1 and 2 only, a proper subset of the {1,2,3}
group's members. -/
def exSubsetStroke : ViewerState := applyStroke exGroup123 ["img_1", "img_2"]

/-- Connect {1,2}, then a stroke over 2 and 3: the new group absorbs the
{1,2} group, but region 1 was not touched by the second stroke. -/
def exAbsorb : ViewerState := applyStroke exMerged12 ["img_2", "img_3"]

/-- The representative mask the spec asks for — stated from the spec's
words, for comparison with the mask the code stores: the bitwise OR of
the masks of ALL of the group's members (including members of absorbed
groups the stroke did not touch). -/
def specGroupMask (s : ViewerState) (g : MaskGroup) : Mask :=
  match g.maskIds.filterMap (getItemById s) with
  | [] => []
  | a :: rest => mergeMasks (a :: rest) (zerosLike a.binaryMask)

end ToggleUntoggle

namespace ToggleUntoggle

set_option maxRecDepth 40000

/-! ## Theorems -/

/-- C7: with zero constituent regions, or constituents of zero total area,
`compute_region_properties` produces no record (and cannot fail);
otherwise it produces one. -/
theorem compute_region_properties_none_iff (props : List RegionProps) (b : Bool) :
    compute_region_properties props b = none ↔ props = [] ∨ totalArea props = 0 := by
  cases props with
  | nil => simp [compute_region_properties]
  | cons p ps =>
    by_cases h : totalArea (p :: ps) = 0
    · simp [compute_region_properties, h]
    · simp [compute_region_properties, h]

/-- Witness for C7 at a concrete input: a single zero-area constituent
yields no record. -/
theorem compute_region_properties_none_iff_witness :
    compute_region_properties [constProps 0 5] true = none ∧
    ([constProps 0 5] = [] ∨ totalArea [constProps 0 5] = 0) :=
  ⟨(compute_region_properties_none_iff [constProps 0 5] true).mpr
      (Or.inr (by norm_num [totalArea, constProps])),
    Or.inr (by norm_num [totalArea, constProps])⟩

/-- C6: for a nonempty constituent list of nonzero total area, every
shape-ratio descriptor (eccentricity, extent, major/minor axis length,
equivalent diameter, orientation, solidity) of the aggregate record is
the area-weighted average `Σ(area_i * value_i) / Σ(area_i)`; for two
constituents of equal area it is `(v1 + v2) / 2`, and for area ratio 3:1
it is `(3*v1 + v2) / 4`. -/
theorem compute_region_properties_shape_ratio_weighted
    (b : Bool) (p : RegionProps) (ps : List RegionProps)
    (h : totalArea (p :: ps) ≠ 0) :
    (compute_region_properties (p :: ps) b).isSome = true ∧
    ∀ rec, compute_region_properties (p :: ps) b = some rec →
      ∀ fp ∈ shapeRatioFields,
        fp.2 rec =
          ((p :: ps).map (fun r => r.area * fp.1 r)).sum /
            ((p :: ps).map RegionProps.area).sum ∧
        ∀ q, ps = [q] →
          (p.area = q.area → fp.2 rec = (fp.1 p + fp.1 q) / 2) ∧
          (p.area = 3 * q.area → fp.2 rec = (3 * fp.1 p + fp.1 q) / 4) := by
  constructor
  · simp [compute_region_properties, h]
  · intro rec hrec
    simp only [compute_region_properties, if_neg h, Option.some.injEq] at hrec
    subst hrec
    intro fp hfp
    have main : ∀ f : RegionProps → ℚ,
        weightedScalar (p :: ps) f =
          ((p :: ps).map (fun r => r.area * f r)).sum /
            ((p :: ps).map RegionProps.area).sum := by
      intro f; simp [weightedScalar, totalArea]
    have two : ∀ f : RegionProps → ℚ, ∀ q, ps = [q] →
        (p.area = q.area → weightedScalar (p :: ps) f = (f p + f q) / 2) ∧
        (p.area = 3 * q.area →
          weightedScalar (p :: ps) f = (3 * f p + f q) / 4) := by
      intro f q hq
      subst hq
      have htot : p.area + q.area ≠ 0 := by
        simpa [totalArea] using h
      constructor
      · intro hA
        have ha : q.area ≠ 0 := by
          intro h0
          exact htot (by rw [hA, h0, add_zero])
        rw [weightedScalar, totalArea]
        simp only [List.map_cons, List.map_nil, List.sum_cons, List.sum_nil,
          add_zero, hA]
        rw [div_eq_div_iff (by rw [← two_mul]; exact mul_ne_zero two_ne_zero ha)
          two_ne_zero]
        ring
      · intro hA
        have ha : q.area ≠ 0 := by
          intro h0
          apply htot
          rw [hA, h0]
          ring
        rw [weightedScalar, totalArea]
        simp only [List.map_cons, List.map_nil, List.sum_cons, List.sum_nil,
          add_zero, hA]
        rw [div_eq_div_iff
          (by rw [show (3 : ℚ) * q.area + q.area = 4 * q.area by ring]
              exact mul_ne_zero (by norm_num) ha)
          (by norm_num : (4 : ℚ) ≠ 0)]
        ring
    simp only [shapeRatioFields, List.mem_cons, List.not_mem_nil, or_false] at hfp
    rcases hfp with rfl | rfl | rfl | rfl | rfl | rfl | rfl <;>
      exact ⟨main _, two _⟩

/-- Witness for C6: two constituents with areas 3 and 1 and descriptor
values 5 and 9 everywhere; the theorem applies and, in particular, gives
the 3:1 aggregate `(3*5+9)/4 = 6`. -/
theorem compute_region_properties_shape_ratio_weighted_witness :
    (compute_region_properties [constProps 3 5, constProps 1 9] true).isSome = true ∧
    ∀ rec,
      compute_region_properties [constProps 3 5, constProps 1 9] true = some rec →
      ∀ fp ∈ shapeRatioFields,
        fp.2 rec =
          (([constProps 3 5, constProps 1 9]).map (fun r => r.area * fp.1 r)).sum /
            (([constProps 3 5, constProps 1 9]).map RegionProps.area).sum ∧
        ∀ q, [constProps 1 9] = [q] →
          ((constProps 3 5).area = q.area →
            fp.2 rec = (fp.1 (constProps 3 5) + fp.1 q) / 2) ∧
          ((constProps 3 5).area = 3 * q.area →
            fp.2 rec = (3 * fp.1 (constProps 3 5) + fp.1 q) / 4) :=
  compute_region_properties_shape_ratio_weighted true (constProps 3 5)
    [constProps 1 9] (by norm_num [totalArea, constProps])


/-- C9: `pixel_conversion` multiplies exactly the area-like columns
(`area`, `bbox_area`, `area_convex`) by the squared rate and exactly the
length-like columns (`perimeter`, `major_axis_length`,
`minor_axis_length`, `equivalent_diameter_area`, `feret_diameter_max`,
`perimeter_crofton`) by the rate, leaving every other column unchanged;
with rate `0.18 = 9/50`, pixel-space area 100 and perimeter 40 become
`3.24 = 81/25` and `7.2 = 36/5`. -/
theorem pixel_conversion_scales_exactly :
    (∀ (row : MeasurementRow) (rate : ℚ),
      (pixel_conversion row rate).area = row.area.map (· * rate ^ 2) ∧
      (pixel_conversion row rate).bbox_area = row.bbox_area.map (· * rate ^ 2) ∧
      (pixel_conversion row rate).area_convex = row.area_convex.map (· * rate ^ 2) ∧
      (pixel_conversion row rate).perimeter = row.perimeter.map (· * rate) ∧
      (pixel_conversion row rate).major_axis_length =
        row.major_axis_length.map (· * rate) ∧
      (pixel_conversion row rate).minor_axis_length =
        row.minor_axis_length.map (· * rate) ∧
      (pixel_conversion row rate).equivalent_diameter_area =
        row.equivalent_diameter_area.map (· * rate) ∧
      (pixel_conversion row rate).feret_diameter_max =
        row.feret_diameter_max.map (· * rate) ∧
      (pixel_conversion row rate).perimeter_crofton =
        row.perimeter_crofton.map (· * rate) ∧
      (pixel_conversion row rate).eccentricity = row.eccentricity ∧
      (pixel_conversion row rate).extent = row.extent ∧
      (pixel_conversion row rate).orientation = row.orientation ∧
      (pixel_conversion row rate).solidity = row.solidity ∧
      (pixel_conversion row rate).centroid_y = row.centroid_y ∧
      (pixel_conversion row rate).centroid_x = row.centroid_x ∧
      (pixel_conversion row rate).mean_intensity = row.mean_intensity ∧
      (pixel_conversion row rate).max_intensity = row.max_intensity ∧
      (pixel_conversion row rate).min_intensity = row.min_intensity) ∧
    (pixel_conversion c9row (9 / 50)).area = some (81 / 25) ∧
    (pixel_conversion c9row (9 / 50)).perimeter = some (36 / 5) := by
  refine ⟨fun row rate => ?_, ?_, ?_⟩
  · exact ⟨rfl, rfl, rfl, rfl, rfl, rfl, rfl, rfl, rfl, rfl, rfl, rfl, rfl,
      rfl, rfl, rfl, rfl, rfl⟩
  · show (c9row.area.map (· * (9 / 50 : ℚ) ^ 2)) = some (81 / 25)
    norm_num [c9row]
  · show (c9row.perimeter.map (· * (9 / 50 : ℚ))) = some (36 / 5)
    norm_num [c9row]

/-- C10 counterexample: the strictly negative rate `-1` passes the worker
gate (Python `not self.pixel_conv_rate` is false for `-1.0`, and
`-1.0 > 2` is false), although the claim demands every rate `≤ 0` be
rejected. -/
theorem rate_gate_accepts_negative :
    rate_gate_passes (some (-1)) = true ∧ (-1 : ℚ) ≤ 0 := by
  constructor
  · rfl
  · norm_num

/-- C10 as amended: the worker rejects the conversion rate exactly when it
is missing, exactly zero, or above the ceiling 2 — a strictly negative
rate passes the gate and processing proceeds. -/
theorem rate_gate_fails_iff (r : Option ℚ) :
    rate_gate_passes r = false ↔
      r = none ∨ r = some 0 ∨ ∃ q, r = some q ∧ 2 < q := by
  cases r with
  | none => simp [rate_gate_passes]
  | some q =>
    simp only [rate_gate_passes]
    split_ifs with h1 h2
    · simp [h1]
    · simp only [Option.some.injEq]
      constructor
      · intro _
        exact Or.inr (Or.inr ⟨q, rfl, h2⟩)
      · intro _
        trivial
    · simp only [Option.some.injEq]
      constructor
      · intro hfalse
        exact absurd hfalse (by simp)
      · rintro (hc | hc | ⟨q2, hq2, hlt⟩)
        · exact absurd hc (by simp)
        · exact absurd hc h1
        · cases hq2
          exact absurd hlt h2


/-- The row a deduplicated list retains for a key is the first row of the
input with that key, and its key was not previously seen. -/
theorem dropDuplicates_spec (l : List ExportRow) (seen : List (String × String))
    (r : ExportRow) (hr : r ∈ dropDuplicates l seen) :
    rowKey r ∉ seen ∧
      l.find? (fun x => decide (rowKey x = rowKey r)) = some r := by
  induction l generalizing seen with
  | nil => simp [dropDuplicates] at hr
  | cons r0 rs ih =>
    by_cases h0 : rowKey r0 ∈ seen
    · rw [dropDuplicates, if_pos h0] at hr
      obtain ⟨hns, hfind⟩ := ih seen hr
      have hne : rowKey r0 ≠ rowKey r := by
        intro he
        exact hns (he ▸ h0)
      refine ⟨hns, ?_⟩
      rw [List.find?_cons_of_neg _ (by simpa using hne), hfind]
    · rw [dropDuplicates, if_neg h0] at hr
      rcases List.mem_cons.mp hr with rfl | htail
      · exact ⟨h0, by rw [List.find?_cons_of_pos _ (by simp)]⟩
      · obtain ⟨hns, hfind⟩ := ih _ htail
        have hne : rowKey r0 ≠ rowKey r := by
          intro he
          exact hns (by rw [← he]; exact List.mem_cons_self _ _)
        refine ⟨fun hm => hns (List.mem_cons_of_mem _ hm), ?_⟩
        rw [List.find?_cons_of_neg _ (by simpa using hne), hfind]

/-- C2: no record produced by the export reconciliation carries the
`(image_name, label)` key of an individual region that is currently a
member of any group of the registry (`build_group_label_map` keys), as
long as no group member carries a drawn label — member labels are decimal
renderings of segmentation labels, so none starts with `"drawn_"`. -/
theorem integrate_excludes_group_members
    (s : ViewerState) (correctRows newRows : List ExportRow)
    (hkeys : ∀ k ∈ (build_group_label_map s).map Prod.fst,
      pyStartsWith k.2 "drawn_" = false) :
    ∀ r ∈ integrate_new_objects correctRows newRows
        ((build_group_label_map s).map Prod.fst),
      (r.image, r.label) ∉ (build_group_label_map s).map Prod.fst := by
  intro r hr hcontra
  have hfind := (dropDuplicates_spec _ _ _ hr).2
  have hmem := List.mem_of_find?_eq_some hfind
  have hkeep := (List.mem_filter.mp hmem).2
  cases hb : pyStartsWith r.label "drawn_" with
  | true =>
    have := hkeys (r.image, r.label) hcontra
    rw [hb] at this
    exact Bool.true_eq_false.mp this
  | false =>
    rw [keepRow, if_neg (by simp [hb]), if_pos hcontra] at hkeep
    exact Bool.false_ne_true hkeep

/-- Witness for C2: the registry `exAbsorb` holds one group with members
1, 2, 3 of image `img`; reconciling a batch table containing rows for
regions 1 and 2 with a new composite row yields an output whose composite
row is keyed by none of the three members. -/
theorem integrate_excludes_group_members_witness :
    ("img", "(1,2,3)") ∉ (build_group_label_map exAbsorb).map Prod.fst :=
  integrate_excludes_group_members exAbsorb
    [⟨"img", "1", 5⟩, ⟨"img", "2", 6⟩] [⟨"img", "(1,2,3)", 7⟩]
    (by decide) ⟨"img", "(1,2,3)", 7⟩ (by decide)

/-- C8 counterexample: the original batch row and a later edited row share
the key `("img", "1")`; reconciliation keeps the batch row (pandas
`drop_duplicates` retains the first occurrence, and `build_combined_and_excluded_df`
concatenates the batch rows first), while the claim requires the most
recently produced row to win. -/
theorem integrate_dedup_keeps_batch_row :
    integrate_new_objects [⟨"img", "1", 10⟩] [⟨"img", "1", 99⟩] [] =
      [⟨"img", "1", 10⟩] ∧
    (⟨"img", "1", 99⟩ : ExportRow) ∉
      integrate_new_objects [⟨"img", "1", 10⟩] [⟨"img", "1", 99⟩] [] := by
  constructor
  · rfl
  · decide

/-- C8 as amended: reconciliation deduplicates by `(image_name, label)`
keeping the FIRST surviving occurrence; since the original batch rows
precede the newly produced rows in the concatenation, the original batch
record wins whenever an edited record shares its key. -/
theorem integrate_dedup_keeps_first
    (correctRows newRows : List ExportRow) (mk : List (String × String))
    (r : ExportRow) (hr : r ∈ integrate_new_objects correctRows newRows mk) :
    ((correctRows ++ newRows).filter (keepRow mk)).find?
      (fun x => decide (rowKey x = rowKey r)) = some r :=
  (dropDuplicates_spec _ _ _ hr).2

/-- Witness for C8's amended statement: with a batch row and an edited row
sharing the key `("a", "1")`, the surviving record is found first in the
concatenation — it is the batch row. -/
theorem integrate_dedup_keeps_first_witness :
    ((([(⟨"a", "1", 3⟩ : ExportRow)] ++ [(⟨"a", "1", 4⟩ : ExportRow), ⟨"a", "2", 5⟩]).filter
        (keepRow [])).find?)
      (fun x => decide (rowKey x = rowKey (⟨"a", "1", 3⟩ : ExportRow))) =
      some ⟨"a", "1", 3⟩ :=
  integrate_dedup_keeps_first [⟨"a", "1", 3⟩] [⟨"a", "1", 4⟩, ⟨"a", "2", 5⟩]
    [] ⟨"a", "1", 3⟩ (by decide)


/-! ### Dictionary lemmas -/

theorem dictLookup_cons {κ α : Type} [DecidableEq κ] (p : κ × α)
    (d : List (κ × α)) (k : κ) :
    dictLookup (p :: d) k = if p.1 = k then some p.2 else dictLookup d k := by
  by_cases h : p.1 = k
  · rw [dictLookup, List.find?_cons_of_pos _ (by simpa using h), if_pos h]
    rfl
  · rw [dictLookup, List.find?_cons_of_neg _ (by simpa using h), if_neg h]
    rfl

theorem dictLookup_insert {κ α : Type} [DecidableEq κ] (d : List (κ × α))
    (k : κ) (v : α) (q : κ) :
    dictLookup (dictInsert d k v) q = if q = k then some v else dictLookup d q := by
  induction d with
  | nil =>
    by_cases h : q = k
    · subst h
      simp [dictInsert, dictLookup_cons]
    · simp [dictInsert, dictLookup_cons, h, Ne.symm h]
  | cons kv rest ih =>
    rw [dictInsert]
    by_cases h : kv.1 = k
    · rw [if_pos h, dictLookup_cons, dictLookup_cons]
      split_ifs <;> simp_all
    · rw [if_neg h, dictLookup_cons, dictLookup_cons, ih]
      split_ifs <;> simp_all

theorem dictLookup_erase {κ α : Type} [DecidableEq κ] (d : List (κ × α))
    (k : κ) (q : κ) :
    dictLookup (dictErase d k) q = if q = k then none else dictLookup d q := by
  induction d with
  | nil =>
    by_cases h : q = k <;> simp [dictErase, dictLookup, h]
  | cons kv rest ih =>
    rw [dictErase, List.filter_cons]
    by_cases hkv : kv.1 = k
    · rw [if_neg (by simp [hkv])]
      rw [show List.filter (fun kv => decide (kv.1 ≠ k)) rest = dictErase rest k
          from rfl, ih, dictLookup_cons]
      split_ifs <;> simp_all
    · rw [if_pos (by simp [hkv]), dictLookup_cons,
        show List.filter (fun kv => decide (kv.1 ≠ k)) rest = dictErase rest k
          from rfl, ih, dictLookup_cons]
      split_ifs <;> simp_all


/-! ### The registry bookkeeping invariant -/

/-- Well-formedness of the grouping bookkeeping: group identities are
distinct and below the freshness counter, member sets are pairwise
disjoint, the membership index and the groups' member sets are mutual
inverses, and every member id resolves to an item. -/
structure StateWF (s : ViewerState) : Prop where
  gidsNodup : (s.connectedGroups.map MaskGroup.gid).Nodup
  gidsBound : ∀ g ∈ s.connectedGroups, g.gid < s.nextGid
  disjoint : s.connectedGroups.Pairwise
    (fun g1 g2 => ∀ mid ∈ g1.maskIds, mid ∉ g2.maskIds)
  idxToGroup : ∀ mid gid, dictLookup s.maskIdToGroup mid = some gid →
    ∃ g ∈ s.connectedGroups, g.gid = gid ∧ mid ∈ g.maskIds
  groupToIdx : ∀ g ∈ s.connectedGroups, ∀ mid ∈ g.maskIds,
    dictLookup s.maskIdToGroup mid = some g.gid
  membersItems : ∀ g ∈ s.connectedGroups, ∀ mid ∈ g.maskIds,
    mid ∈ s.maskItems.map itemId

/-- `StateWF` only reads the groups, the index, the item ids and the
counter; it transfers along equal projections. -/
theorem stateWF_transfer {s s' : ViewerState}
    (h1 : s'.connectedGroups = s.connectedGroups)
    (h2 : s'.maskIdToGroup = s.maskIdToGroup)
    (h3 : s'.maskItems.map itemId = s.maskItems.map itemId)
    (h4 : s'.nextGid = s.nextGid) (hwf : StateWF s) : StateWF s' := by
  refine ⟨?_, ?_, ?_, ?_, ?_, ?_⟩ <;> rw [h1]
  · exact hwf.gidsNodup
  · rw [h4]; exact hwf.gidsBound
  · exact hwf.disjoint
  · rw [h2]; exact hwf.idxToGroup
  · rw [h2]; exact hwf.groupToIdx
  · rw [h3]; exact hwf.membersItems

/-- Two groups of a well-formed list are equal when their identities are. -/
theorem gid_inj {l : List MaskGroup} (hnodup : (l.map MaskGroup.gid).Nodup)
    {a b : MaskGroup} (ha : a ∈ l) (hb : b ∈ l) (he : a.gid = b.gid) :
    a = b := by
  induction l with
  | nil => cases ha
  | cons g0 gs ih =>
    rw [List.map_cons, List.nodup_cons] at hnodup
    rcases List.mem_cons.mp ha with rfl | ha2
    · rcases List.mem_cons.mp hb with rfl | hb2
      · rfl
      · exact absurd (he ▸ List.mem_map_of_mem MaskGroup.gid hb2) hnodup.1
    · rcases List.mem_cons.mp hb with rfl | hb2
      · exact absurd (he ▸ List.mem_map_of_mem MaskGroup.gid ha2) hnodup.1
      · exact ih hnodup.2 ha2 hb2

/-! ### Projection lemmas through the operations -/

theorem create_merged_mask_groups (s : ViewerState) (items : List MaskItem) :
    (create_merged_mask s items).2.connectedGroups = s.connectedGroups := by
  cases items <;> rfl

theorem create_merged_mask_idx (s : ViewerState) (items : List MaskItem) :
    (create_merged_mask s items).2.maskIdToGroup = s.maskIdToGroup := by
  cases items <;> rfl

theorem create_merged_mask_items (s : ViewerState) (items : List MaskItem) :
    (create_merged_mask s items).2.maskItems = s.maskItems := by
  cases items <;> rfl

theorem create_merged_mask_nextGid (s : ViewerState) (items : List MaskItem) :
    (create_merged_mask s items).2.nextGid = s.nextGid := by
  cases items <;> rfl

theorem mergeCallbackUpdate_groups (s : ViewerState) (it : MaskItem) :
    (mergeCallbackUpdate s it).connectedGroups = s.connectedGroups := by
  rw [mergeCallbackUpdate]
  split <;> split <;> rfl

theorem mergeCallbackUpdate_idx (s : ViewerState) (it : MaskItem) :
    (mergeCallbackUpdate s it).maskIdToGroup = s.maskIdToGroup := by
  rw [mergeCallbackUpdate]
  split <;> split <;> rfl

theorem mergeCallbackUpdate_items (s : ViewerState) (it : MaskItem) :
    (mergeCallbackUpdate s it).maskItems = s.maskItems := by
  rw [mergeCallbackUpdate]
  split <;> split <;> rfl

theorem mergeCallbackUpdate_nextGid (s : ViewerState) (it : MaskItem) :
    (mergeCallbackUpdate s it).nextGid = s.nextGid := by
  rw [mergeCallbackUpdate]
  split <;> split <;> rfl

theorem foldl_mergeCallbackUpdate_groups (items : List MaskItem) (s : ViewerState) :
    (items.foldl mergeCallbackUpdate s).connectedGroups = s.connectedGroups := by
  induction items generalizing s with
  | nil => rfl
  | cons it its ih => rw [List.foldl_cons, ih, mergeCallbackUpdate_groups]

theorem foldl_mergeCallbackUpdate_idx (items : List MaskItem) (s : ViewerState) :
    (items.foldl mergeCallbackUpdate s).maskIdToGroup = s.maskIdToGroup := by
  induction items generalizing s with
  | nil => rfl
  | cons it its ih => rw [List.foldl_cons, ih, mergeCallbackUpdate_idx]

theorem foldl_mergeCallbackUpdate_items (items : List MaskItem) (s : ViewerState) :
    (items.foldl mergeCallbackUpdate s).maskItems = s.maskItems := by
  induction items generalizing s with
  | nil => rfl
  | cons it its ih => rw [List.foldl_cons, ih, mergeCallbackUpdate_items]

theorem foldl_mergeCallbackUpdate_nextGid (items : List MaskItem) (s : ViewerState) :
    (items.foldl mergeCallbackUpdate s).nextGid = s.nextGid := by
  induction items generalizing s with
  | nil => rfl
  | cons it its ih => rw [List.foldl_cons, ih, mergeCallbackUpdate_nextGid]

theorem setItemActiveFirst_map_itemId (l : List MaskItem) (mid : String) :
    (setItemActiveFirst l mid).map itemId = l.map itemId := by
  induction l with
  | nil => rfl
  | cons it its ih =>
    rw [setItemActiveFirst]
    split_ifs with h
    · rfl
    · rw [List.map_cons, List.map_cons, ih]

theorem restore_individual_mask_groups (s : ViewerState) (mid : String) :
    (restore_individual_mask s mid).connectedGroups = s.connectedGroups := by
  rw [restore_individual_mask]
  cases getItemById s mid <;> rfl

theorem restore_individual_mask_nextGid (s : ViewerState) (mid : String) :
    (restore_individual_mask s mid).nextGid = s.nextGid := by
  rw [restore_individual_mask]
  cases getItemById s mid <;> rfl

theorem restore_individual_mask_map_itemId (s : ViewerState) (mid : String) :
    (restore_individual_mask s mid).maskItems.map itemId =
      s.maskItems.map itemId := by
  rw [restore_individual_mask]
  cases getItemById s mid with
  | none => rfl
  | some item => exact setItemActiveFirst_map_itemId s.maskItems mid

/-- An id resolves to an item exactly when it is among the item ids. -/
theorem getItemById_isSome_iff (s : ViewerState) (mid : String) :
    (getItemById s mid).isSome = true ↔ mid ∈ s.maskItems.map itemId := by
  rw [getItemById, List.find?_isSome]
  constructor
  · rintro ⟨it, hmem, hp⟩
    exact (of_decide_eq_true hp) ▸ List.mem_map_of_mem itemId hmem
  · intro hmem
    rcases List.mem_map.mp hmem with ⟨it, hmem2, he⟩
    exact ⟨it, hmem2, decide_eq_true he⟩

theorem restore_individual_mask_idx_some (s : ViewerState) (mid : String)
    (h : (getItemById s mid).isSome = true) :
    (restore_individual_mask s mid).maskIdToGroup =
      dictErase s.maskIdToGroup mid := by
  rw [restore_individual_mask]
  cases hi : getItemById s mid with
  | none => rw [hi] at h; cases h
  | some item => rfl


theorem foldl_restore_groups (mids : List String) (s : ViewerState) :
    ((mids.foldl restore_individual_mask s).connectedGroups) =
      s.connectedGroups := by
  induction mids generalizing s with
  | nil => rfl
  | cons m rest ih => rw [List.foldl_cons, ih, restore_individual_mask_groups]

theorem foldl_restore_nextGid (mids : List String) (s : ViewerState) :
    ((mids.foldl restore_individual_mask s).nextGid) = s.nextGid := by
  induction mids generalizing s with
  | nil => rfl
  | cons m rest ih => rw [List.foldl_cons, ih, restore_individual_mask_nextGid]

theorem foldl_restore_map_itemId (mids : List String) (s : ViewerState) :
    ((mids.foldl restore_individual_mask s).maskItems.map itemId) =
      s.maskItems.map itemId := by
  induction mids generalizing s with
  | nil => rfl
  | cons m rest ih =>
    rw [List.foldl_cons, ih, restore_individual_mask_map_itemId]

theorem foldl_restore_idx_lookup (mids : List String) (s : ViewerState)
    (hitems : ∀ mid ∈ mids, mid ∈ s.maskItems.map itemId) (q : String) :
    dictLookup ((mids.foldl restore_individual_mask s).maskIdToGroup) q =
      if q ∈ mids then none else dictLookup s.maskIdToGroup q := by
  induction mids generalizing s with
  | nil => simp
  | cons m rest ih =>
    rw [List.foldl_cons]
    have hm : (getItemById s m).isSome = true :=
      (getItemById_isSome_iff s m).mpr (hitems m (List.mem_cons_self m rest))
    have hrest : ∀ mid ∈ rest, mid ∈
        (restore_individual_mask s m).maskItems.map itemId := by
      intro mid hmid
      rw [restore_individual_mask_map_itemId]
      exact hitems mid (List.mem_cons_of_mem m hmid)
    rw [ih (restore_individual_mask s m) hrest,
      restore_individual_mask_idx_some s m hm, dictLookup_erase]
    by_cases h1 : q ∈ rest
    · rw [if_pos h1, if_pos (List.mem_cons_of_mem m h1)]
    · rw [if_neg h1]
      by_cases h2 : q = m
      · rw [if_pos h2, if_pos (by rw [h2]; exact List.mem_cons_self m rest)]
      · rw [if_neg h2, if_neg (by
          intro hc
          rcases List.mem_cons.mp hc with hc2 | hc2
          · exact h2 hc2
          · exact h1 hc2)]

theorem removeFirstGid_sublist (l : List MaskGroup) (gid : Nat) :
    (removeFirstGid l gid).Sublist l := by
  induction l with
  | nil => exact List.Sublist.refl []
  | cons g gs ih =>
    rw [removeFirstGid]
    split_ifs with h
    · exact List.sublist_cons_self g gs
    · exact List.Sublist.cons₂ g ih

theorem mem_removeFirstGid {l : List MaskGroup}
    (hnodup : (l.map MaskGroup.gid).Nodup) (gid : Nat) (x : MaskGroup) :
    x ∈ removeFirstGid l gid ↔ x ∈ l ∧ x.gid ≠ gid := by
  induction l with
  | nil => simp [removeFirstGid]
  | cons g gs ih =>
    rw [List.map_cons, List.nodup_cons] at hnodup
    rw [removeFirstGid]
    split_ifs with h
    · constructor
      · intro hx
        refine ⟨List.mem_cons_of_mem g hx, fun he => ?_⟩
        exact hnodup.1 (h ▸ he ▸ List.mem_map_of_mem MaskGroup.gid hx)
      · rintro ⟨hx, hne⟩
        rcases List.mem_cons.mp hx with rfl | hx2
        · exact absurd h hne
        · exact hx2
    · rw [List.mem_cons, ih hnodup.2, List.mem_cons]
      constructor
      · rintro (rfl | ⟨hx, hne⟩)
        · exact ⟨Or.inl rfl, h⟩
        · exact ⟨Or.inr hx, hne⟩
      · rintro ⟨rfl | hx, hne⟩
        · exact Or.inl rfl
        · exact Or.inr ⟨hx, hne⟩

/-- The member ids of any group of a well-formed state resolve to items. -/
theorem memberIds_have_items {s : ViewerState} (hwf : StateWF s)
    {g : MaskGroup} (hg : g ∈ s.connectedGroups) :
    ∀ mid ∈ g.maskIds, mid ∈ s.maskItems.map itemId :=
  hwf.membersItems g hg

/-- Distinct groups of a well-formed state have disjoint member sets,
in either order. -/
theorem groups_disjoint_of_ne {s : ViewerState} (hwf : StateWF s)
    {g h : MaskGroup} (hg : g ∈ s.connectedGroups) (hh : h ∈ s.connectedGroups)
    (hne : g ≠ h) {mid : String} (hmid : mid ∈ g.maskIds) : mid ∉ h.maskIds := by
  have hp : s.connectedGroups.Pairwise
      (fun a b => ∀ m, ¬(m ∈ a.maskIds ∧ m ∈ b.maskIds)) := by
    refine hwf.disjoint.imp ?_
    rintro a b hab m ⟨hma, hmb⟩
    exact hab m hma hmb
  have hsym : Symmetric
      (fun a b : MaskGroup => ∀ m, ¬(m ∈ a.maskIds ∧ m ∈ b.maskIds)) := by
    rintro a b hab m ⟨hma, hmb⟩
    exact hab m ⟨hmb, hma⟩
  intro hmh
  exact (List.Pairwise.forall hsym hp hg hh hne) mid ⟨hmid, hmh⟩

/-- `disconnect_group` preserves well-formedness. -/
theorem stateWF_disconnect {s : ViewerState} (hwf : StateWF s)
    {g : MaskGroup} (hg : g ∈ s.connectedGroups) :
    StateWF (disconnect_group s g) := by
  rw [disconnect_group]
  set s1 := remove_merged_mask_entries s (get_merged_key_from_group s g) with hs1
  set s2 := g.maskIds.foldl restore_individual_mask s1 with hs2
  have h2groups : s2.connectedGroups = s.connectedGroups := by
    rw [hs2, foldl_restore_groups]
    rfl
  have h2items : s2.maskItems.map itemId = s.maskItems.map itemId := by
    rw [hs2, foldl_restore_map_itemId]
    rfl
  have h2next : s2.nextGid = s.nextGid := by
    rw [hs2, foldl_restore_nextGid]
    rfl
  have h2idx : ∀ q, dictLookup s2.maskIdToGroup q =
      if q ∈ g.maskIds then none else dictLookup s.maskIdToGroup q := by
    intro q
    rw [hs2, foldl_restore_idx_lookup g.maskIds s1
      (memberIds_have_items hwf hg) q]
    rfl
  have hgroups3 : (remove_group s2 g).connectedGroups =
      removeFirstGid s.connectedGroups g.gid := by
    show removeFirstGid s2.connectedGroups g.gid = _
    rw [h2groups]
  have hmem3 : ∀ x, x ∈ (remove_group s2 g).connectedGroups ↔
      x ∈ s.connectedGroups ∧ x.gid ≠ g.gid := by
    intro x
    rw [hgroups3]
    exact mem_removeFirstGid hwf.gidsNodup g.gid x
  refine ⟨?_, ?_, ?_, ?_, ?_, ?_⟩
  · rw [hgroups3]
    exact hwf.gidsNodup.sublist ((removeFirstGid_sublist _ _).map MaskGroup.gid)
  · intro h hh
    have hhs : h ∈ s.connectedGroups := ((hmem3 h).mp hh).1
    show h.gid < s2.nextGid
    rw [h2next]
    exact hwf.gidsBound h hhs
  · rw [hgroups3]
    exact hwf.disjoint.sublist (removeFirstGid_sublist _ _)
  · intro mid gid hlook
    have hlook2 : dictLookup s2.maskIdToGroup mid = some gid := hlook
    rw [h2idx mid] at hlook2
    by_cases hmid : mid ∈ g.maskIds
    · rw [if_pos hmid] at hlook2
      cases hlook2
    · rw [if_neg hmid] at hlook2
      obtain ⟨h, hh, hhgid, hhmid⟩ := hwf.idxToGroup mid gid hlook2
      refine ⟨h, (hmem3 h).mpr ⟨hh, fun he => ?_⟩, hhgid, hhmid⟩
      exact hmid ((gid_inj hwf.gidsNodup hh hg he) ▸ hhmid)
  · intro h hh mid hmid
    obtain ⟨hhs, hne⟩ := (hmem3 h).mp hh
    have hneq : h ≠ g := fun he => hne (by rw [he])
    have hnot : mid ∉ g.maskIds := groups_disjoint_of_ne hwf hhs hg hneq hmid
    show dictLookup s2.maskIdToGroup mid = some h.gid
    rw [h2idx mid, if_neg hnot]
    exact hwf.groupToIdx h hhs mid hmid
  · intro h hh mid hmid
    show mid ∈ s2.maskItems.map itemId
    rw [h2items]
    exact hwf.membersItems h (((hmem3 h).mp hh).1) mid hmid


theorem setUnion_mem (a b : List String) (x : String) :
    x ∈ setUnion a b ↔ x ∈ a ∨ x ∈ b := by
  induction b generalizing a with
  | nil => simp [setUnion]
  | cons b0 bs ih =>
    rw [setUnion, List.foldl_cons]
    show x ∈ setUnion (if b0 ∈ a then a else a ++ [b0]) bs ↔ _
    rw [ih]
    split_ifs with h
    · rw [List.mem_cons]
      constructor
      · rintro (hx | hx)
        · exact Or.inl hx
        · exact Or.inr (Or.inr hx)
      · rintro (hx | rfl | hx)
        · exact Or.inl hx
        · exact Or.inl h
        · exact Or.inr hx
    · rw [List.mem_append, List.mem_singleton, List.mem_cons, or_assoc]

theorem foldl_setUnion_mem (gs : List MaskGroup) (init : List String) (x : String) :
    x ∈ gs.foldl (fun acc g => setUnion acc g.maskIds) init ↔
      x ∈ init ∨ ∃ g ∈ gs, x ∈ g.maskIds := by
  induction gs generalizing init with
  | nil => simp
  | cons g0 gs2 ih =>
    rw [List.foldl_cons, ih, setUnion_mem]
    constructor
    · rintro ((hx | hx) | ⟨g, hgm, hx⟩)
      · exact Or.inl hx
      · exact Or.inr ⟨g0, List.mem_cons_self g0 gs2, hx⟩
      · exact Or.inr ⟨g, List.mem_cons_of_mem g0 hgm, hx⟩
    · rintro (hx | ⟨g, hgm, hx⟩)
      · exact Or.inl (Or.inl hx)
      · rcases List.mem_cons.mp hgm with rfl | hgm2
        · exact Or.inl (Or.inr hx)
        · exact Or.inr ⟨g, hgm2, hx⟩

theorem foldl_removeFirstGid_sublist (gids : List Nat) (l : List MaskGroup) :
    (gids.foldl removeFirstGid l).Sublist l := by
  induction gids generalizing l with
  | nil => exact List.Sublist.refl l
  | cons gid rest ih =>
    exact (ih (removeFirstGid l gid)).trans (removeFirstGid_sublist l gid)

theorem mem_foldl_removeFirstGid (gids : List Nat) (l : List MaskGroup)
    (hnodup : (l.map MaskGroup.gid).Nodup) (x : MaskGroup) :
    x ∈ gids.foldl removeFirstGid l ↔ x ∈ l ∧ x.gid ∉ gids := by
  induction gids generalizing l with
  | nil => simp
  | cons gid rest ih =>
    rw [List.foldl_cons, ih (removeFirstGid l gid)
      (hnodup.sublist ((removeFirstGid_sublist l gid).map MaskGroup.gid)),
      mem_removeFirstGid hnodup, List.mem_cons]
    constructor
    · rintro ⟨⟨hx, hne⟩, hnr⟩
      refine ⟨hx, fun hc => ?_⟩
      rcases hc with hc | hc
      · exact hne hc
      · exact hnr hc
    · rintro ⟨hx, hnm⟩
      exact ⟨⟨hx, fun he => hnm (Or.inl he)⟩, fun hr => hnm (Or.inr hr)⟩

theorem foldl_dictInsert_lookup (mids : List String)
    (d : List (String × Nat)) (v : Nat) (q : String) :
    dictLookup (mids.foldl (fun d2 mid => dictInsert d2 mid v) d) q =
      if q ∈ mids then some v else dictLookup d q := by
  induction mids generalizing d with
  | nil => simp
  | cons m rest ih =>
    rw [List.foldl_cons, ih, dictLookup_insert]
    by_cases h1 : q ∈ rest
    · rw [if_pos h1, if_pos (List.mem_cons_of_mem m h1)]
    · rw [if_neg h1]
      by_cases h2 : q = m
      · rw [if_pos h2, if_pos (by rw [h2]; exact List.mem_cons_self m rest)]
      · rw [if_neg h2, if_neg (by
          intro hc
          rcases List.mem_cons.mp hc with hc2 | hc2
          · exact h2 hc2
          · exact h1 hc2)]

/-- `merge_and_connect_masks` preserves well-formedness, provided every
touched id resolves to an item. -/
theorem stateWF_merge {s : ViewerState} (hwf : StateWF s)
    (activeItems : List MaskItem) (maskIds : List String) (mergedMask : Mask)
    (hids : ∀ mid ∈ maskIds, mid ∈ s.maskItems.map itemId) :
    StateWF (merge_and_connect_masks s activeItems maskIds mergedMask) := by
  rw [merge_and_connect_masks]
  set uniqueGids := (maskIds.filterMap (dictLookup s.maskIdToGroup)).dedup
    with hUG
  set uniqueGroups := uniqueGids.filterMap
    (fun gid => s.connectedGroups.find? (fun g => decide (g.gid = gid)))
    with hUGr
  set mergedMaskIds := uniqueGroups.foldl (fun acc g => setUnion acc g.maskIds)
    maskIds with hMM
  set newGroup : MaskGroup :=
    { gid := s.nextGid, maskIds := mergedMaskIds, mask := mergedMask } with hNG
  set s1 : ViewerState :=
    { s with
      connectedGroups :=
        (uniqueGids.foldl removeFirstGid s.connectedGroups) ++ [newGroup]
      maskIdToGroup :=
        mergedMaskIds.foldl (fun d mid => dictInsert d mid s.nextGid)
          s.maskIdToGroup
      nextGid := s.nextGid + 1 } with hs1
  have hugr_mem : ∀ u ∈ uniqueGroups, u ∈ s.connectedGroups ∧ u.gid ∈ uniqueGids := by
    intro u hu
    rcases List.mem_filterMap.mp hu with ⟨gid, hgid, hfind⟩
    have hmem := List.mem_of_find?_eq_some hfind
    have hpred := List.find?_some hfind
    exact ⟨hmem, (of_decide_eq_true hpred) ▸ hgid⟩
  have hugr_cover : ∀ gid ∈ uniqueGids, ∃ u ∈ uniqueGroups, u.gid = gid := by
    intro gid hgid
    have : ∃ mid ∈ maskIds, dictLookup s.maskIdToGroup mid = some gid := by
      rcases List.mem_filterMap.mp (List.mem_dedup.mp hgid) with ⟨mid, hm, hl⟩
      exact ⟨mid, hm, hl⟩
    rcases this with ⟨mid, _, hl⟩
    rcases hwf.idxToGroup mid gid hl with ⟨g, hgmem, hggid, _⟩
    have hsome : (s.connectedGroups.find?
        (fun g2 => decide (g2.gid = gid))).isSome = true := by
      rw [List.find?_isSome]
      exact ⟨g, hgmem, decide_eq_true hggid⟩
    rcases Option.isSome_iff_exists.mp hsome with ⟨u, hu⟩
    have hp := List.find?_some hu
    exact ⟨u, List.mem_filterMap.mpr ⟨gid, hgid, hu⟩, of_decide_eq_true hp⟩
  have hgidUG : ∀ gid, gid ∈ uniqueGids ↔
      ∃ mid ∈ maskIds, dictLookup s.maskIdToGroup mid = some gid := by
    intro gid
    rw [hUG, List.mem_dedup, List.mem_filterMap]
  have hmm_mem : ∀ x, x ∈ mergedMaskIds ↔
      x ∈ maskIds ∨ ∃ u ∈ uniqueGroups, x ∈ u.maskIds := by
    intro x
    rw [hMM, foldl_setUnion_mem]
  have hremain : ∀ x, x ∈ uniqueGids.foldl removeFirstGid s.connectedGroups ↔
      x ∈ s.connectedGroups ∧ x.gid ∉ uniqueGids :=
    mem_foldl_removeFirstGid uniqueGids s.connectedGroups hwf.gidsNodup
  have hlook1 : ∀ q, dictLookup s1.maskIdToGroup q =
      if q ∈ mergedMaskIds then some s.nextGid else dictLookup s.maskIdToGroup q := by
    intro q
    show dictLookup (mergedMaskIds.foldl
      (fun d mid => dictInsert d mid s.nextGid) s.maskIdToGroup) q = _
    rw [foldl_dictInsert_lookup]
  -- a member of a remaining group is never a merged id
  have hsep : ∀ y, y ∈ s.connectedGroups → y.gid ∉ uniqueGids →
      ∀ mid ∈ y.maskIds, mid ∉ mergedMaskIds := by
    intro y hy hyg mid hmid hc
    rcases (hmm_mem mid).mp hc with hc2 | ⟨u, hu, hc2⟩
    · have : dictLookup s.maskIdToGroup mid = some y.gid :=
        hwf.groupToIdx y hy mid hmid
      exact hyg ((hgidUG y.gid).mpr ⟨mid, hc2, this⟩)
    · obtain ⟨hus, hug⟩ := hugr_mem u hu
      have hne : y ≠ u := fun he => hyg (he ▸ hug)
      exact (groups_disjoint_of_ne hwf hy hus hne hmid) hc2
  -- the state after the callback-update fold has the same four projections
  have hfold := stateWF_transfer
    (foldl_mergeCallbackUpdate_groups activeItems s1)
    (foldl_mergeCallbackUpdate_idx activeItems s1)
    (by rw [foldl_mergeCallbackUpdate_items])
    (foldl_mergeCallbackUpdate_nextGid activeItems s1)
  apply hfold
  refine ⟨?_, ?_, ?_, ?_, ?_, ?_⟩
  · show ((uniqueGids.foldl removeFirstGid s.connectedGroups
      ++ [newGroup]).map MaskGroup.gid).Nodup
    rw [List.map_append, List.map_singleton]
    rw [List.nodup_append]
    refine ⟨hwf.gidsNodup.sublist
      ((foldl_removeFirstGid_sublist _ _).map MaskGroup.gid),
      List.nodup_singleton _, ?_⟩
    intro a ha hb
    rw [List.mem_singleton] at hb
    rcases List.mem_map.mp ha with ⟨y, hy, hay⟩
    have hys : y ∈ s.connectedGroups := ((hremain y).mp hy).1
    have hlt : y.gid < s.nextGid := hwf.gidsBound y hys
    have hng : newGroup.gid = s.nextGid := rfl
    exact absurd (hay.trans (hb.trans hng)) (Nat.ne_of_lt hlt)
  · intro h hh
    show h.gid < s.nextGid + 1
    rcases List.mem_append.mp hh with hh2 | hh2
    · have := hwf.gidsBound h ((hremain h).mp hh2).1
      omega
    · rw [List.mem_singleton] at hh2
      rw [hh2, hNG]
      simp only
      omega
  · rw [List.pairwise_append]
    refine ⟨hwf.disjoint.sublist (foldl_removeFirstGid_sublist _ _),
      List.pairwise_singleton _ _, ?_⟩
    intro y hy z hz mid hmid
    rw [List.mem_singleton] at hz
    subst hz
    obtain ⟨hys, hyg⟩ := (hremain y).mp hy
    show mid ∉ mergedMaskIds
    exact hsep y hys hyg mid hmid
  · intro mid gid hlook
    rw [hlook1 mid] at hlook
    by_cases hmid : mid ∈ mergedMaskIds
    · rw [if_pos hmid] at hlook
      refine ⟨newGroup, List.mem_append_right _ (List.mem_singleton_self _),
        ?_, hmid⟩
      rw [hNG]
      cases hlook
      rfl
    · rw [if_neg hmid] at hlook
      obtain ⟨h, hh, hhgid, hhmid⟩ := hwf.idxToGroup mid gid hlook
      refine ⟨h, List.mem_append_left _ ((hremain h).mpr ⟨hh, fun hc => ?_⟩),
        hhgid, hhmid⟩
      rcases hugr_cover h.gid hc with ⟨u, hu, hug⟩
      have hus := (hugr_mem u hu).1
      have : u = h := gid_inj hwf.gidsNodup hus hh hug
      subst this
      exact hmid ((hmm_mem mid).mpr (Or.inr ⟨u, hu, hhmid⟩))
  · intro h hh mid hmid
    rw [hlook1 mid]
    rcases List.mem_append.mp hh with hh2 | hh2
    · obtain ⟨hhs, hhg⟩ := (hremain h).mp hh2
      rw [if_neg (hsep h hhs hhg mid hmid)]
      exact hwf.groupToIdx h hhs mid hmid
    · rw [List.mem_singleton] at hh2
      subst hh2
      rw [if_pos hmid]
  · intro h hh mid hmid
    show mid ∈ s.maskItems.map itemId
    rcases List.mem_append.mp hh with hh2 | hh2
    · exact hwf.membersItems h ((hremain h).mp hh2).1 mid hmid
    · rw [List.mem_singleton] at hh2
      subst hh2
      rcases (hmm_mem mid).mp hmid with hc | ⟨u, hu, hc⟩
      · exact hids mid hc
      · exact hwf.membersItems u (hugr_mem u hu).1 mid hc


/-- The group `check_and_disconnect` settles on is one of the registry's
groups. -/
theorem findStrokeGroup_mem {s : ViewerState} {hits : List MaskItem}
    {g : MaskGroup} (h : findStrokeGroup s hits = some g) :
    g ∈ s.connectedGroups := by
  rw [findStrokeGroup] at h
  split_ifs at h
  · split at h
    · exact List.mem_of_find?_eq_some h
    · cases h

theorem check_and_disconnect_eq (s : ViewerState) (hits : List MaskItem) :
    check_and_disconnect s hits =
      match findStrokeGroup s hits with
      | some g => (true, disconnect_group s g)
      | none => (false, s) := rfl

theorem handle_mouse_path_eq (s : ViewerState) (hits : List MaskItem) :
    handle_mouse_path s hits =
      if (hits.filter (fun m => !m.isInactive)).length ≤ 1 then s
      else
        match check_and_disconnect
            (create_merged_mask s (hits.filter (fun m => !m.isInactive))).2 hits with
        | (true, s2) => s2
        | (false, s2) =>
          merge_and_connect_masks s2 (hits.filter (fun m => !m.isInactive))
            (hitIdSet (hits.filter (fun m => !m.isInactive)))
            (create_merged_mask s (hits.filter (fun m => !m.isInactive))).1 := rfl

/-- `handle_mouse_path` preserves well-formedness when the hit masks are
items of the registry. -/
theorem stateWF_handle {s : ViewerState} (hwf : StateWF s) (hits : List MaskItem)
    (hhits : ∀ it ∈ hits, it ∈ s.maskItems) :
    StateWF (handle_mouse_path s hits) := by
  rw [handle_mouse_path_eq]
  split_ifs with hlen
  · exact hwf
  · set activeItems := hits.filter (fun m => !m.isInactive) with hAI
    set r := create_merged_mask s activeItems with hr
    have hwf1 : StateWF r.2 :=
      stateWF_transfer (create_merged_mask_groups s activeItems)
        (create_merged_mask_idx s activeItems)
        (by rw [create_merged_mask_items])
        (create_merged_mask_nextGid s activeItems) hwf
    rw [check_and_disconnect_eq]
    cases hfs : findStrokeGroup r.2 hits with
    | some g =>
      exact stateWF_disconnect hwf1 (findStrokeGroup_mem hfs)
    | none =>
      apply stateWF_merge hwf1 activeItems (hitIdSet activeItems) r.1
      intro mid hmid
      rcases List.mem_dedup.mp hmid with hmid2
      rcases List.mem_map.mp hmid2 with ⟨it, hitmem, hide⟩
      have hit_s : it ∈ s.maskItems :=
        hhits it (List.mem_of_mem_filter hitmem)
      have : r.2.maskItems = s.maskItems := create_merged_mask_items s activeItems
      rw [this]
      exact hide ▸ List.mem_map_of_mem itemId hit_s

/-- One stroke preserves well-formedness. -/
theorem stateWF_applyStroke {s : ViewerState} (hwf : StateWF s)
    (ids : List String) : StateWF (applyStroke s ids) := by
  apply stateWF_handle hwf
  intro it hit
  have h1 := List.mem_of_mem_filter hit
  rcases List.mem_filterMap.mp h1 with ⟨mid, _, hfind⟩
  exact List.mem_of_find?_eq_some hfind

theorem foldl_addMaskInput_groups (masks : List MaskInput) (s : ViewerState) :
    ((masks.foldl addMaskInput s).connectedGroups) = s.connectedGroups := by
  induction masks generalizing s with
  | nil => rfl
  | cons m rest ih =>
    rw [List.foldl_cons, ih]
    rw [addMaskInput]
    split_ifs <;> rfl

theorem foldl_addMaskInput_idx (masks : List MaskInput) (s : ViewerState) :
    ((masks.foldl addMaskInput s).maskIdToGroup) = s.maskIdToGroup := by
  induction masks generalizing s with
  | nil => rfl
  | cons m rest ih =>
    rw [List.foldl_cons, ih]
    rw [addMaskInput]
    split_ifs <;> rfl

/-- A freshly populated registry is well-formed: it has no groups and an
empty membership index. -/
theorem stateWF_initViewer (masks : List MaskInput) :
    StateWF (initViewer masks) := by
  have hg : (initViewer masks).connectedGroups = [] :=
    foldl_addMaskInput_groups masks _
  have hi : (initViewer masks).maskIdToGroup = [] :=
    foldl_addMaskInput_idx masks _
  refine ⟨?_, ?_, ?_, ?_, ?_, ?_⟩
  · rw [hg]; exact List.nodup_nil
  · intro g hgm; rw [hg] at hgm; cases hgm
  · rw [hg]; exact List.Pairwise.nil
  · intro mid gid hl
    rw [hi] at hl
    cases hl
  · intro g hgm; rw [hg] at hgm; cases hgm
  · intro g hgm; rw [hg] at hgm; cases hgm

/-- Strokes fold: well-formedness is preserved along any stroke sequence. -/
theorem foldl_stateWF (ops : List (List String)) (s : ViewerState)
    (hwf : StateWF s) : StateWF (ops.foldl applyStroke s) := by
  induction ops generalizing s with
  | nil => exact hwf
  | cons op rest ih => exact ih _ (stateWF_applyStroke hwf op)

/-- Any state reached from a fresh registry by a sequence of strokes is
well-formed. -/
theorem stateWF_reachable (masks : List MaskInput) (ops : List (List String)) :
    StateWF (applyStrokes (initViewer masks) ops) :=
  foldl_stateWF ops _ (stateWF_initViewer masks)


/-- C1: in every registry reachable by any sequence of connect/disconnect
strokes from a fresh registry, every region key belongs to at most one
group's member set (the member sets are pairwise disjoint), a key has an
entry in `mask_id_to_group` if and only if it is in some group's member
set, and the entry names exactly the group containing the key. -/
theorem registry_group_invariant (masks : List MaskInput)
    (ops : List (List String)) :
    ((applyStrokes (initViewer masks) ops).connectedGroups.Pairwise
      (fun g1 g2 => ∀ mid ∈ g1.maskIds, mid ∉ g2.maskIds)) ∧
    (∀ mid,
      (dictLookup (applyStrokes (initViewer masks) ops).maskIdToGroup
        mid).isSome = true ↔
      ∃ g ∈ (applyStrokes (initViewer masks) ops).connectedGroups,
        mid ∈ g.maskIds) ∧
    (∀ mid gid,
      dictLookup (applyStrokes (initViewer masks) ops).maskIdToGroup mid =
        some gid →
      ∀ g ∈ (applyStrokes (initViewer masks) ops).connectedGroups,
        mid ∈ g.maskIds → g.gid = gid) := by
  have hwf := stateWF_reachable masks ops
  refine ⟨hwf.disjoint, ?_, ?_⟩
  · intro mid
    constructor
    · intro hsome
      rcases Option.isSome_iff_exists.mp hsome with ⟨gid, hl⟩
      rcases hwf.idxToGroup mid gid hl with ⟨g, hgm, _, hmid⟩
      exact ⟨g, hgm, hmid⟩
    · rintro ⟨g, hgm, hmid⟩
      rw [hwf.groupToIdx g hgm mid hmid]
      rfl
  · intro mid gid hl g hgm hmid
    have := hwf.groupToIdx g hgm mid hmid
    rw [this] at hl
    cases hl
    rfl

/-- C3: the merge/disconnect round trip on two regions.  Connecting
regions 1 and 2 of image `img` and immediately disconnecting the group
restores both regions' callback entries to their pre-merge active state
(`True`), restores each one's original individual mask under its own key,
and removes the group and its index entries — but the composite record is
NOT removed: `create_merged_mask` stored it under the underscore-joined
key `img_(1_2)`, while `disconnect_group` pops the comma-joined key
`img_(1,2)`, so the merged entries survive in both `callback_dict` and
`new_mask_dict`, contradicting the claim's "no trace remains". -/
theorem roundtrip_leaves_composite_record :
    ((dictLookup exRoundTrip.callbackDict "img_1").map CallbackEntry.isActive
      = some true) ∧
    ((dictLookup exRoundTrip.callbackDict "img_2").map CallbackEntry.isActive
      = some true) ∧
    ((dictLookup exRoundTrip.newMaskDict "img_1").map NewMaskEntry.mask
      = some exMask1) ∧
    ((dictLookup exRoundTrip.newMaskDict "img_2").map NewMaskEntry.mask
      = some exMask2) ∧
    exRoundTrip.connectedGroups = [] ∧
    exRoundTrip.maskIdToGroup = [] ∧
    ((dictLookup exRoundTrip.newMaskDict "img_(1_2)").map NewMaskEntry.source
      = some "connect") ∧
    ((dictLookup exRoundTrip.callbackDict "img_(1_2)").map CallbackEntry.merged
      = some (some true)) ∧
    dictLookup exRoundTrip.newMaskDict "img_(1,2)" = none ∧
    dictLookup exRoundTrip.callbackDict "img_(1,2)" = none := by
  decide


/-! ### The stroke tie-break characterization -/

theorem filter_length_eq_all {α : Type} (l : List α) (p : α → Bool)
    (h : (l.filter p).length = l.length) : ∀ a ∈ l, p a = true := by
  induction l with
  | nil => intro a ha; cases ha
  | cons a rest ih =>
    rw [List.filter_cons] at h
    by_cases hp : p a = true
    · rw [if_pos hp] at h
      intro b hb
      rcases List.mem_cons.mp hb with rfl | hb2
      · exact hp
      · exact ih (Nat.succ_injective h) b hb2
    · rw [if_neg hp] at h
      have hle := List.length_filter_le p rest
      rw [List.length_cons] at h
      omega

theorem dedup_length_one {α : Type} [DecidableEq α] (l : List α)
    (h : l.dedup.length = 1) : ∀ a ∈ l, ∀ b ∈ l, a = b := by
  rcases List.length_eq_one.mp h with ⟨x, hx⟩
  intro a ha b hb
  have ha2 := List.mem_dedup.mpr ha
  have hb2 := List.mem_dedup.mpr hb
  rw [hx, List.mem_singleton] at ha2 hb2
  rw [ha2, hb2]

theorem dedup_all_eq {α : Type} [DecidableEq α] (l : List α) (c : α)
    (hne : l ≠ []) (hall : ∀ a ∈ l, a = c) : l.dedup = [c] := by
  induction l with
  | nil => exact absurd rfl hne
  | cons a rest ih =>
    have hac : a = c := hall a (List.mem_cons_self a rest)
    cases rest with
    | nil =>
      rw [List.dedup_cons_of_not_mem (by simp), List.dedup_nil, hac]
    | cons b rest2 =>
      have hr : (b :: rest2).dedup = [c] :=
        ih (by simp) (fun x hx => hall x (List.mem_cons_of_mem a hx))
      have hab : a = b := hac.trans (hall b (by simp)).symm
      have hmem : a ∈ b :: rest2 := by
        rw [hab]
        exact List.mem_cons_self b rest2
      rw [List.dedup_cons_of_mem hmem]
      exact hr

theorem getItemById_itemId {s : ViewerState} {mid : String} {it : MaskItem}
    (h : getItemById s mid = some it) : itemId it = mid := by
  have hp := List.find?_some h
  exact of_decide_eq_true hp

theorem strokeHits_active (s : ViewerState) (ids : List String) :
    ∀ it ∈ strokeHits s ids, it.isInactive = false := by
  intro it hit
  have := List.of_mem_filter hit
  simpa using this

theorem strokeHits_mem_maskItems (s : ViewerState) (ids : List String) :
    ∀ it ∈ strokeHits s ids, it ∈ s.maskItems := by
  intro it hit
  rcases List.mem_filterMap.mp (List.mem_of_mem_filter hit) with ⟨mid, _, hfind⟩
  exact List.mem_of_find?_eq_some hfind

theorem filterMap_getItemById_map_itemId (s : ViewerState) (l : List String) :
    (l.filterMap (getItemById s)).map itemId =
      l.filter (fun mid => (getItemById s mid).isSome) := by
  induction l with
  | nil => rfl
  | cons m rest ih =>
    rw [List.filterMap_cons, List.filter_cons]
    cases hm : getItemById s m with
    | none => rw [ih, if_neg (by simp)]
    | some it =>
      rw [List.map_cons, ih, if_pos (by simp : (some it).isSome = true),
        getItemById_itemId hm]

theorem strokeHits_ids_nodup (s : ViewerState) (ids : List String) :
    ((strokeHits s ids).map itemId).Nodup := by
  have h1 : List.Sublist ((strokeHits s ids).map itemId)
      ((ids.dedup.filterMap (getItemById s)).map itemId) :=
    (List.filter_sublist _).map itemId
  have h2 : List.Sublist ((ids.dedup.filterMap (getItemById s)).map itemId)
      ids.dedup := by
    rw [filterMap_getItemById_map_itemId]
    exact List.filter_sublist _
  exact (h1.trans h2).nodup (List.nodup_dedup ids)

theorem strokeConnectedIds_congr {s s2 : ViewerState}
    (h : s2.maskIdToGroup = s.maskIdToGroup) (hits : List MaskItem) :
    strokeConnectedIds s2 hits = strokeConnectedIds s hits := by
  rw [strokeConnectedIds, strokeConnectedIds, h]

theorem findStrokeGroup_congr {s s2 : ViewerState}
    (h1 : s2.maskIdToGroup = s.maskIdToGroup)
    (h2 : s2.connectedGroups = s.connectedGroups) (hits : List MaskItem) :
    findStrokeGroup s2 hits = findStrokeGroup s hits := by
  rw [findStrokeGroup, findStrokeGroup, strokeConnectedIds_congr h1, h1, h2]

/-- Under the registry invariant, `check_and_disconnect` settles on group
`g` exactly when the stroke hits at least one mask and every hit mask's id
is one of `g`'s members — also when the hits are a proper subset of the
members. -/
theorem findStrokeGroup_some_iff {s : ViewerState} (hwf : StateWF s)
    (hits : List MaskItem) (hnodup : (hits.map itemId).Nodup)
    (hne : hits ≠ []) (g : MaskGroup) :
    findStrokeGroup s hits = some g ↔
      g ∈ s.connectedGroups ∧ ∀ it ∈ hits, itemId it ∈ g.maskIds := by
  have hdedup : hitIdSet hits = hits.map itemId := by
    rw [hitIdSet, List.dedup_eq_self.mpr hnodup]
  rcases hits with _ | ⟨it0, rest⟩
  · exact absurd rfl hne
  constructor
  · intro h
    rw [findStrokeGroup] at h
    split_ifs at h with h1 h2
    · split at h
      · rename_i gid hl
        have hgmem := List.mem_of_find?_eq_some h
        have hp := List.find?_some h
        have hggid : g.gid = gid := of_decide_eq_true hp
        have hall : ∀ mid ∈ (it0 :: rest).map itemId,
            (dictLookup s.maskIdToGroup mid).isSome = true := by
          have hlen : ((it0 :: rest).map itemId).length = (it0 :: rest).length :=
            List.length_map _ itemId
          rw [strokeConnectedIds, hdedup] at h1
          exact filter_length_eq_all _ _ (h1.trans hlen.symm)
        have hconn : strokeConnectedIds s (it0 :: rest) =
            (it0 :: rest).map itemId := by
          rw [strokeConnectedIds, hdedup]
          exact List.filter_eq_self.mpr hall
        have hhead : (strokeConnectedIds s (it0 :: rest)).headD "" ∈
            strokeConnectedIds s (it0 :: rest) := by
          rw [hconn]
          simp
        have hgidmem : gid ∈ (strokeConnectedIds s (it0 :: rest)).filterMap
            (dictLookup s.maskIdToGroup) :=
          List.mem_filterMap.mpr ⟨_, hhead, hl⟩
        refine ⟨hgmem, fun it hit => ?_⟩
        have hmem : itemId it ∈ (it0 :: rest).map itemId :=
          List.mem_map_of_mem itemId hit
        have hsome := hall (itemId it) hmem
        rcases Option.isSome_iff_exists.mp hsome with ⟨gid2, hl2⟩
        have hgid2mem : gid2 ∈ (strokeConnectedIds s (it0 :: rest)).filterMap
            (dictLookup s.maskIdToGroup) :=
          List.mem_filterMap.mpr ⟨itemId it, by rw [hconn]; exact hmem, hl2⟩
        have heq : gid2 = gid := dedup_length_one _ h2 gid2 hgid2mem gid hgidmem
        rcases hwf.idxToGroup (itemId it) gid2 hl2 with ⟨g2, hg2mem, hg2gid, hg2id⟩
        have hg2g : g2 = g := gid_inj hwf.gidsNodup hg2mem hgmem
          (by rw [hg2gid, heq, hggid])
        exact hg2g ▸ hg2id
      · cases h
  · rintro ⟨hgmem, hall⟩
    have hlook : ∀ it ∈ it0 :: rest, dictLookup s.maskIdToGroup (itemId it) =
        some g.gid := fun it hit => hwf.groupToIdx g hgmem (itemId it) (hall it hit)
    have hconn : strokeConnectedIds s (it0 :: rest) = (it0 :: rest).map itemId := by
      rw [strokeConnectedIds, hdedup]
      refine List.filter_eq_self.mpr (fun mid hmid => ?_)
      rcases List.mem_map.mp hmid with ⟨it, hit, rfl⟩
      rw [hlook it hit]
      rfl
    have hgids : ∀ x ∈ (strokeConnectedIds s (it0 :: rest)).filterMap
        (dictLookup s.maskIdToGroup), x = g.gid := by
      intro x hx
      rcases List.mem_filterMap.mp hx with ⟨mid, hmid, hl⟩
      rw [hconn] at hmid
      rcases List.mem_map.mp hmid with ⟨it, hit, rfl⟩
      rw [hlook it hit] at hl
      cases hl
      rfl
    have hgne : (strokeConnectedIds s (it0 :: rest)).filterMap
        (dictLookup s.maskIdToGroup) ≠ [] := by
      intro hc
      have hin : g.gid ∈ (strokeConnectedIds s (it0 :: rest)).filterMap
          (dictLookup s.maskIdToGroup) := by
        refine List.mem_filterMap.mpr
          ⟨itemId it0, ?_, hlook it0 (by simp)⟩
        rw [hconn]
        simp
      rw [hc] at hin
      cases hin
    rw [findStrokeGroup,
      if_pos (by rw [hconn]; exact List.length_map _ itemId),
      if_pos (by rw [dedup_all_eq _ g.gid hgne hgids]; rfl)]
    have hhead : dictLookup s.maskIdToGroup
        ((strokeConnectedIds s (it0 :: rest)).headD "") = some g.gid := by
      rw [hconn]
      exact hlook it0 (by simp)
    rw [hhead]
    show s.connectedGroups.find? (fun g2 => decide (g2.gid = g.gid)) = some g
    have hfind : (s.connectedGroups.find?
        (fun g2 => decide (g2.gid = g.gid))).isSome = true := by
      rw [List.find?_isSome]
      exact ⟨g, hgmem, by simp⟩
    rcases Option.isSome_iff_exists.mp hfind with ⟨u, hu⟩
    have hu2 := List.mem_of_find?_eq_some hu
    have hup := List.find?_some hu
    have hugid : u.gid = g.gid := of_decide_eq_true hup
    rw [hu, gid_inj hwf.gidsNodup hu2 hgmem hugid]


theorem create_merged_mask_fst (s : ViewerState) (a : MaskItem)
    (as : List MaskItem) :
    (create_merged_mask s (a :: as)).1 =
      mergeMasks (a :: as) (zerosLike a.binaryMask) := rfl

theorem disconnect_group_nextGid (s : ViewerState) (g : MaskGroup) :
    (disconnect_group s g).nextGid = s.nextGid := by
  rw [disconnect_group]
  show (g.maskIds.foldl restore_individual_mask _).nextGid = s.nextGid
  rw [foldl_restore_nextGid]
  rfl

theorem disconnect_group_groups (s : ViewerState) (g : MaskGroup) :
    (disconnect_group s g).connectedGroups =
      removeFirstGid s.connectedGroups g.gid := by
  rw [disconnect_group]
  show removeFirstGid
    (g.maskIds.foldl restore_individual_mask _).connectedGroups g.gid = _
  rw [foldl_restore_groups]
  rfl

theorem disconnect_group_idx_lookup (s : ViewerState) (g : MaskGroup)
    (h : ∀ mid ∈ g.maskIds, mid ∈ s.maskItems.map itemId) (q : String) :
    dictLookup (disconnect_group s g).maskIdToGroup q =
      if q ∈ g.maskIds then none else dictLookup s.maskIdToGroup q := by
  rw [disconnect_group]
  show dictLookup
    (g.maskIds.foldl restore_individual_mask
      (remove_merged_mask_entries s (get_merged_key_from_group s g))).maskIdToGroup
    q = _
  rw [foldl_restore_idx_lookup g.maskIds
    (remove_merged_mask_entries s (get_merged_key_from_group s g)) h q]
  rfl

theorem merge_and_connect_groups (s : ViewerState) (activeItems : List MaskItem)
    (maskIds : List String) (mergedMask : Mask) :
    (merge_and_connect_masks s activeItems maskIds mergedMask).connectedGroups =
      (((maskIds.filterMap (dictLookup s.maskIdToGroup)).dedup).foldl
        removeFirstGid s.connectedGroups) ++
      [{ gid := s.nextGid,
         maskIds := (((maskIds.filterMap (dictLookup s.maskIdToGroup)).dedup).filterMap
             (fun gid => s.connectedGroups.find? (fun g => decide (g.gid = gid)))).foldl
           (fun acc g => setUnion acc g.maskIds) maskIds,
         mask := mergedMask }] := by
  simp only [merge_and_connect_masks]
  rw [foldl_mergeCallbackUpdate_groups]

theorem merge_and_connect_nextGid (s : ViewerState) (activeItems : List MaskItem)
    (maskIds : List String) (mergedMask : Mask) :
    (merge_and_connect_masks s activeItems maskIds mergedMask).nextGid =
      s.nextGid + 1 := by
  simp only [merge_and_connect_masks]
  rw [foldl_mergeCallbackUpdate_nextGid]

theorem handle_mouse_path_of_disconnect {s : ViewerState} {hits : List MaskItem}
    {g : MaskGroup} (hact : hits.filter (fun m => !m.isInactive) = hits)
    (hlen : ¬ hits.length ≤ 1) (hfs : findStrokeGroup s hits = some g) :
    handle_mouse_path s hits =
      disconnect_group (create_merged_mask s hits).2 g := by
  rw [handle_mouse_path_eq, hact, if_neg hlen, check_and_disconnect_eq,
    findStrokeGroup_congr (create_merged_mask_idx s hits)
      (create_merged_mask_groups s hits) hits, hfs]

theorem handle_mouse_path_of_merge {s : ViewerState} {hits : List MaskItem}
    (hact : hits.filter (fun m => !m.isInactive) = hits)
    (hlen : ¬ hits.length ≤ 1) (hfs : findStrokeGroup s hits = none) :
    handle_mouse_path s hits =
      merge_and_connect_masks (create_merged_mask s hits).2 hits
        (hitIdSet hits) (create_merged_mask s hits).1 := by
  rw [handle_mouse_path_eq, hact, if_neg hlen, check_and_disconnect_eq,
    findStrokeGroup_congr (create_merged_mask_idx s hits)
      (create_merged_mask_groups s hits) hits, hfs]


/-- C4 as amended: for a completed stroke with at least two active hits on
a reachable registry, if every hit region belongs to one and the same
existing group — even when the hits are only a proper subset of its
members — the stroke disconnects that whole group (no new group is
created, the group is removed and all its members leave the index);
only when no single group contains every hit does the stroke connect,
producing one new group absorbing every hit. -/
theorem stroke_tiebreak (masks : List MaskInput) (ops : List (List String))
    (ids : List String) (s : ViewerState)
    (hs : s = applyStrokes (initViewer masks) ops)
    (h2 : 2 ≤ (strokeHits s ids).length) :
    (∀ g ∈ s.connectedGroups,
      (∀ it ∈ strokeHits s ids, itemId it ∈ g.maskIds) →
      (applyStroke s ids).nextGid = s.nextGid ∧
      (∀ h ∈ (applyStroke s ids).connectedGroups,
        h ∈ s.connectedGroups ∧ h.gid ≠ g.gid) ∧
      (∀ mid ∈ g.maskIds,
        dictLookup (applyStroke s ids).maskIdToGroup mid = none)) ∧
    ((∀ g ∈ s.connectedGroups, ∃ it ∈ strokeHits s ids, itemId it ∉ g.maskIds) →
      ∃ h ∈ (applyStroke s ids).connectedGroups,
        h.gid = s.nextGid ∧ ∀ it ∈ strokeHits s ids, itemId it ∈ h.maskIds) := by
  have hwf : StateWF s := hs ▸ stateWF_reachable masks ops
  have hnodup := strokeHits_ids_nodup s ids
  have hne : strokeHits s ids ≠ [] := by
    intro hc
    rw [hc] at h2
    simp at h2
  have hact : (strokeHits s ids).filter (fun m => !m.isInactive) =
      strokeHits s ids := by
    refine List.filter_eq_self.mpr (fun it hit => ?_)
    rw [strokeHits_active s ids it hit]
    rfl
  have hlen : ¬ (strokeHits s ids).length ≤ 1 := by omega
  constructor
  · intro g hg hall
    have hfs : findStrokeGroup s (strokeHits s ids) = some g :=
      (findStrokeGroup_some_iff hwf _ hnodup hne g).mpr ⟨hg, hall⟩
    have happly : applyStroke s ids =
        disconnect_group (create_merged_mask s (strokeHits s ids)).2 g := by
      rw [applyStroke]
      exact handle_mouse_path_of_disconnect hact hlen hfs
    refine ⟨?_, ?_, ?_⟩
    · rw [happly, disconnect_group_nextGid, create_merged_mask_nextGid]
    · intro h hh
      rw [happly, disconnect_group_groups, create_merged_mask_groups] at hh
      exact (mem_removeFirstGid hwf.gidsNodup g.gid h).mp hh
    · intro mid hmid
      rw [happly, disconnect_group_idx_lookup _ g
        (by rw [create_merged_mask_items]; exact memberIds_have_items hwf hg),
        if_pos hmid]
  · intro hcond
    have hfs : findStrokeGroup s (strokeHits s ids) = none := by
      cases hf : findStrokeGroup s (strokeHits s ids) with
      | none => rfl
      | some g =>
        obtain ⟨hg, hall⟩ := (findStrokeGroup_some_iff hwf _ hnodup hne g).mp hf
        rcases hcond g hg with ⟨it, hit, hnotin⟩
        exact absurd (hall it hit) hnotin
    have happly : applyStroke s ids =
        merge_and_connect_masks (create_merged_mask s (strokeHits s ids)).2
          (strokeHits s ids) (hitIdSet (strokeHits s ids))
          (create_merged_mask s (strokeHits s ids)).1 := by
      rw [applyStroke]
      exact handle_mouse_path_of_merge hact hlen hfs
    rw [happly, merge_and_connect_groups, create_merged_mask_idx,
      create_merged_mask_groups, create_merged_mask_nextGid]
    refine ⟨_, List.mem_append_right _ (List.mem_singleton_self _), rfl, ?_⟩
    intro it hit
    rw [foldl_setUnion_mem]
    left
    rw [hitIdSet, List.mem_dedup]
    exact List.mem_map_of_mem itemId hit


/-- C4 counterexample: with one group holding regions 1, 2, 3, a stroke
touching only regions 1 and 2 — a proper subset, not "exactly the member
set" — disconnects the whole group: afterwards no group exists and the
group counter is unchanged, while the claim requires this stroke to be a
connect merging the touched regions into one group. -/
theorem stroke_subset_disconnects :
    exGroup123.connectedGroups.map MaskGroup.maskIds =
      [["img_1", "img_2", "img_3"]] ∧
    (strokeHits exGroup123 ["img_1", "img_2"]).map itemId =
      ["img_1", "img_2"] ∧
    exSubsetStroke.connectedGroups = [] ∧
    exSubsetStroke.nextGid = exGroup123.nextGid := by
  decide

/-- Witness for C4's amended statement: the registry with the group
{1,2,3}, stroked over regions 1 and 2. -/
theorem stroke_tiebreak_witness :
    (∀ g ∈ exGroup123.connectedGroups,
      (∀ it ∈ strokeHits exGroup123 ["img_1", "img_2"], itemId it ∈ g.maskIds) →
      (applyStroke exGroup123 ["img_1", "img_2"]).nextGid = exGroup123.nextGid ∧
      (∀ h ∈ (applyStroke exGroup123 ["img_1", "img_2"]).connectedGroups,
        h ∈ exGroup123.connectedGroups ∧ h.gid ≠ g.gid) ∧
      (∀ mid ∈ g.maskIds,
        dictLookup (applyStroke exGroup123 ["img_1", "img_2"]).maskIdToGroup
          mid = none)) ∧
    ((∀ g ∈ exGroup123.connectedGroups,
        ∃ it ∈ strokeHits exGroup123 ["img_1", "img_2"], itemId it ∉ g.maskIds) →
      ∃ h ∈ (applyStroke exGroup123 ["img_1", "img_2"]).connectedGroups,
        h.gid = exGroup123.nextGid ∧
        ∀ it ∈ strokeHits exGroup123 ["img_1", "img_2"], itemId it ∈ h.maskIds) :=
  stroke_tiebreak [⟨"img", 1, exMask1⟩, ⟨"img", 2, exMask2⟩, ⟨"img", 3, exMask3⟩]
    [["img_1", "img_2", "img_3"]] ["img_1", "img_2"] exGroup123 rfl (by decide)

/-- C5 counterexample: starting from the group {1,2}, a stroke over
regions 2 and 3 produces one group whose member set is {1,2,3}, but the
representative mask the code stores is the OR of only the touched masks
(regions 2 and 3) — region 1's pixel is missing — while the claim (and
`specGroupMask`, stated from the spec's words) demands the OR over all
members including the untouched member of the absorbed group. -/
theorem connect_mask_misses_untouched_member :
    exAbsorb.connectedGroups.map MaskGroup.maskIds =
      [["img_2", "img_3", "img_1"]] ∧
    exAbsorb.connectedGroups.map MaskGroup.mask = [[[false, true, true]]] ∧
    exAbsorb.connectedGroups.map (specGroupMask exAbsorb) =
      [[[true, true, true]]] ∧
    exAbsorb.connectedGroups.map MaskGroup.mask ≠
      exAbsorb.connectedGroups.map (specGroupMask exAbsorb) := by
  decide

/-- C5 as amended: a connect stroke (no single group contains every hit)
on a reachable registry produces one new group whose member set is
exactly the union of the touched ids with all members of every group the
stroke touched; those absorbed groups are removed rather than nested; but
the new group's representative mask is the OR of the masks of only the
TOUCHED items — members of absorbed groups the stroke did not touch do
not contribute to it. -/
theorem connect_flattens_absorbed_groups (masks : List MaskInput)
    (ops : List (List String)) (ids : List String) (s : ViewerState)
    (hs : s = applyStrokes (initViewer masks) ops)
    (h2 : 2 ≤ (strokeHits s ids).length)
    (hconnect : ∀ g ∈ s.connectedGroups,
      ∃ it ∈ strokeHits s ids, itemId it ∉ g.maskIds) :
    ∃ h ∈ (applyStroke s ids).connectedGroups,
      h.gid = s.nextGid ∧
      (∀ mid, mid ∈ h.maskIds ↔
        (mid ∈ hitIdSet (strokeHits s ids) ∨
         ∃ g ∈ s.connectedGroups,
           (∃ it ∈ strokeHits s ids, itemId it ∈ g.maskIds) ∧
           mid ∈ g.maskIds)) ∧
      (∀ g ∈ s.connectedGroups,
        (∃ it ∈ strokeHits s ids, itemId it ∈ g.maskIds) →
        ∀ h2g ∈ (applyStroke s ids).connectedGroups, h2g.gid ≠ g.gid) ∧
      (∀ a as, strokeHits s ids = a :: as →
        h.mask = mergeMasks (a :: as) (zerosLike a.binaryMask)) := by
  have hwf : StateWF s := hs ▸ stateWF_reachable masks ops
  have hnodup := strokeHits_ids_nodup s ids
  have hne : strokeHits s ids ≠ [] := by
    intro hc
    rw [hc] at h2
    simp at h2
  have hact : (strokeHits s ids).filter (fun m => !m.isInactive) =
      strokeHits s ids := by
    refine List.filter_eq_self.mpr (fun it hit => ?_)
    rw [strokeHits_active s ids it hit]
    rfl
  have hlen : ¬ (strokeHits s ids).length ≤ 1 := by omega
  have hfs : findStrokeGroup s (strokeHits s ids) = none := by
    cases hf : findStrokeGroup s (strokeHits s ids) with
    | none => rfl
    | some g =>
      obtain ⟨hg, hall⟩ := (findStrokeGroup_some_iff hwf _ hnodup hne g).mp hf
      rcases hconnect g hg with ⟨it, hit, hnotin⟩
      exact absurd (hall it hit) hnotin
  have happly : applyStroke s ids =
      merge_and_connect_masks (create_merged_mask s (strokeHits s ids)).2
        (strokeHits s ids) (hitIdSet (strokeHits s ids))
        (create_merged_mask s (strokeHits s ids)).1 := by
    rw [applyStroke]
    exact handle_mouse_path_of_merge hact hlen hfs
  have hgid_iff : ∀ gid,
      gid ∈ ((hitIdSet (strokeHits s ids)).filterMap
        (dictLookup s.maskIdToGroup)).dedup ↔
      ∃ g ∈ s.connectedGroups, g.gid = gid ∧
        ∃ it ∈ strokeHits s ids, itemId it ∈ g.maskIds := by
    intro gid
    rw [List.mem_dedup, List.mem_filterMap]
    constructor
    · rintro ⟨mid, hmid, hl⟩
      rcases hwf.idxToGroup mid gid hl with ⟨g, hg, hggid, hmidg⟩
      rw [hitIdSet, List.mem_dedup] at hmid
      rcases List.mem_map.mp hmid with ⟨it, hit, rfl⟩
      exact ⟨g, hg, hggid, it, hit, hmidg⟩
    · rintro ⟨g, hg, rfl, it, hit, hin⟩
      exact ⟨itemId it,
        by rw [hitIdSet, List.mem_dedup]; exact List.mem_map_of_mem itemId hit,
        hwf.groupToIdx g hg (itemId it) hin⟩
  have hu_iff : ∀ u,
      u ∈ (((hitIdSet (strokeHits s ids)).filterMap
          (dictLookup s.maskIdToGroup)).dedup).filterMap
        (fun gid => s.connectedGroups.find? (fun g => decide (g.gid = gid))) ↔
      u ∈ s.connectedGroups ∧ ∃ it ∈ strokeHits s ids, itemId it ∈ u.maskIds := by
    intro u
    rw [List.mem_filterMap]
    constructor
    · rintro ⟨gid, hgid, hfind⟩
      have hmem := List.mem_of_find?_eq_some hfind
      have hp := List.find?_some hfind
      have hugid : u.gid = gid := of_decide_eq_true hp
      rcases (hgid_iff gid).mp hgid with ⟨g, hg, hggid, it, hit, hin⟩
      have hgu : g = u := gid_inj hwf.gidsNodup hg hmem (by rw [hggid, hugid])
      exact ⟨hmem, it, hit, hgu ▸ hin⟩
    · rintro ⟨hu, it, hit, hin⟩
      have hgid : u.gid ∈ ((hitIdSet (strokeHits s ids)).filterMap
          (dictLookup s.maskIdToGroup)).dedup :=
        (hgid_iff u.gid).mpr ⟨u, hu, rfl, it, hit, hin⟩
      have hfind : (s.connectedGroups.find?
          (fun g => decide (g.gid = u.gid))).isSome = true := by
        rw [List.find?_isSome]
        exact ⟨u, hu, by simp⟩
      rcases Option.isSome_iff_exists.mp hfind with ⟨w, hw⟩
      have hwmem := List.mem_of_find?_eq_some hw
      have hwp := List.find?_some hw
      have hwu : w = u := gid_inj hwf.gidsNodup hwmem hu (of_decide_eq_true hwp)
      exact ⟨u.gid, hgid, hwu ▸ hw⟩
  rw [happly, merge_and_connect_groups, create_merged_mask_idx,
    create_merged_mask_groups, create_merged_mask_nextGid]
  refine ⟨_, List.mem_append_right _ (List.mem_singleton_self _), rfl, ?_, ?_, ?_⟩
  · intro mid
    rw [foldl_setUnion_mem]
    constructor
    · rintro (hm | ⟨u, hu, hm⟩)
      · exact Or.inl hm
      · obtain ⟨hus, hint⟩ := (hu_iff u).mp hu
        exact Or.inr ⟨u, hus, hint, hm⟩
    · rintro (hm | ⟨g, hg, hint, hm⟩)
      · exact Or.inl hm
      · exact Or.inr ⟨g, (hu_iff g).mpr ⟨hg, hint⟩, hm⟩
  · intro g hg hint h2g hh2g
    rcases List.mem_append.mp hh2g with hrem | hnew
    · have hgin : g.gid ∈ ((hitIdSet (strokeHits s ids)).filterMap
          (dictLookup s.maskIdToGroup)).dedup :=
        (hgid_iff g.gid).mpr ⟨g, hg, rfl, hint⟩
      have hout := (mem_foldl_removeFirstGid _ _ hwf.gidsNodup h2g).mp hrem
      intro he
      exact hout.2 (he ▸ hgin)
    · rw [List.mem_singleton] at hnew
      subst hnew
      have hlt : g.gid < s.nextGid := hwf.gidsBound g hg
      show s.nextGid ≠ g.gid
      omega
  · intro a as hhits
    show (create_merged_mask s (strokeHits s ids)).1 = _
    rw [hhits, create_merged_mask_fst]


/-- Witness for C5's amended statement: the registry with group {1,2},
stroked over regions 2 and 3 — the stroke absorbs the group. -/
theorem connect_flattens_absorbed_groups_witness :
    ∃ h ∈ (applyStroke exMerged12 ["img_2", "img_3"]).connectedGroups,
      h.gid = exMerged12.nextGid ∧
      (∀ mid, mid ∈ h.maskIds ↔
        (mid ∈ hitIdSet (strokeHits exMerged12 ["img_2", "img_3"]) ∨
         ∃ g ∈ exMerged12.connectedGroups,
           (∃ it ∈ strokeHits exMerged12 ["img_2", "img_3"],
             itemId it ∈ g.maskIds) ∧
           mid ∈ g.maskIds)) ∧
      (∀ g ∈ exMerged12.connectedGroups,
        (∃ it ∈ strokeHits exMerged12 ["img_2", "img_3"],
          itemId it ∈ g.maskIds) →
        ∀ h2g ∈ (applyStroke exMerged12 ["img_2", "img_3"]).connectedGroups,
          h2g.gid ≠ g.gid) ∧
      (∀ a as, strokeHits exMerged12 ["img_2", "img_3"] = a :: as →
        h.mask = mergeMasks (a :: as) (zerosLike a.binaryMask)) :=
  connect_flattens_absorbed_groups
    [⟨"img", 1, exMask1⟩, ⟨"img", 2, exMask2⟩, ⟨"img", 3, exMask3⟩]
    [["img_1", "img_2"]] ["img_2", "img_3"] exMerged12 rfl (by decide) (by decide)

end ToggleUntoggle
